import Mathlib

/-!
Verification of the press-ethics analyzer pipeline
(`multimodal_rag_langgraph_gemini.py`, `multimodal_rag_langgraph_gemini_st.py`,
`news_text_scraper.py`) against its specification.

The Python sources are shallowly embedded: strings as `String`/`List Char`,
dictionaries as association lists, regular-expression scans as deterministic
character-list matchers, external collaborators (article extractor, HTTP
fetches, the generative model, the vector search) as oracle functions carried
in an environment record, and raised/caught exceptions as `Except`.
Recursions that are not structural use an explicit fuel argument that is
always instantiated with a sufficient bound (the input length), so every
definition reduces in the kernel.
-/

namespace PressEthics

/-! ## Text primitives -/

/-- The circled-digit item ordinals ①..⑩ used by the regulation text. -/
def isGlyph (c : Char) : Bool :=
  c = '①' || c = '②' || c = '③' || c = '④' || c = '⑤' ||
  c = '⑥' || c = '⑦' || c = '⑧' || c = '⑨' || c = '⑩'

/-- Python `str.split('\n')`. -/
def splitLines : List Char → List (List Char)
  | [] => [[]]
  | c :: cs =>
    if c = '\n' then [] :: splitLines cs
    else match splitLines cs with
      | [] => [[c]]
      | h :: t => (c :: h) :: t

/-- Python `'\n'.join(...)`. -/
def joinWithNewline : List (List Char) → List Char
  | [] => []
  | [l] => l
  | l :: ls => l ++ '\n' :: joinWithNewline ls

/-- Greedy span: longest prefix satisfying `p`, and the rest. -/
def chSpan (p : Char → Bool) : List Char → (List Char × List Char)
  | [] => ([], [])
  | c :: cs =>
    if p c then
      let r := chSpan p cs
      (c :: r.1, r.2)
    else ([], c :: cs)

/-- Python `str.strip()` (whitespace at both ends). -/
def stripWs (l : List Char) : List Char :=
  ((l.dropWhile Char.isWhitespace).reverse.dropWhile Char.isWhitespace).reverse

/-- Python substring test `needle in hay`. -/
def containsSub (needle : List Char) : List Char → Bool
  | [] => needle.isEmpty
  | c :: t => needle.isPrefixOf (c :: t) || containsSub needle t

/-- Python truthiness of an optional string (`None` and `''` are falsy). -/
def pyTruthy : Option String → Bool
  | none => false
  | some s => !(s = "")

/-- Python decimal rendering of a natural number (`f"{n}"`), built from
least-significant digit with a fuel bound. -/
def natDecimalF : Nat → Nat → List Char → List Char
  | 0, _, acc => acc
  | f+1, n, acc =>
    let acc' := Char.ofNat (48 + n % 10) :: acc
    if n < 10 then acc' else natDecimalF f (n / 10) acc'

/-- Decimal digits of `n`. -/
def natDecimal (n : Nat) : List Char := natDecimalF (n+1) n []

/-- Python slicing `s[:2000]` (by code points). -/
def take2000 (s : String) : String := ⟨s.data.take 2000⟩

/-! ## Regulation parsing (`parse_regulation_dict`) -/

/-- One article entry of the parsed regulation: canonical name and ordinal items. -/
structure RegArticle where
  name : List Char
  items : List (Char × List Char)
deriving DecidableEq

/-- Fueled worker for `parseItems`. -/
def parseItemsF : Nat → List Char → List (Char × List Char)
  | 0, _ => []
  | _, [] => []
  | fuel+1, c :: cs =>
    if isGlyph c then
      match chSpan (fun x => !(isGlyph x)) cs with
      | (content, rest) =>
        if content = [] then parseItemsF fuel cs
        else (c, stripWs content) :: parseItemsF fuel rest
    else parseItemsF fuel cs

/-- `re.finditer(r'([①②③④⑤⑥⑦⑧⑨⑩])([^①②③④⑤⑥⑦⑧⑨⑩]+)', items_text)`:
each item ordinal followed by its (stripped) content. -/
def parseItems (l : List Char) : List (Char × List Char) := parseItemsF l.length l

/-- `re.match(r'제(\d+)조「([^」]+)」(.+)', line)` on a line starting with '제',
as used by `parse_regulation_dict`. -/
def parseArticleLine : List Char → Option (List Char × RegArticle)
  | '제' :: r1 =>
    match chSpan Char.isDigit r1 with
    | (ds, r2) =>
      if ds = [] then none
      else
        match r2 with
        | '조' :: '「' :: r3 =>
          match chSpan (fun c => !(c = '」')) r3 with
          | (nm, r4) =>
            if nm = [] then none
            else
              match r4 with
              | '」' :: rest => if rest = [] then none else some (ds, ⟨nm, parseItems rest⟩)
              | _ => none
        | _ => none
  | _ => none

/-- The REGULATION prompt constant (verbatim from the source). -/
def REGULATION : String := "당신은 한국신문윤리위원회 심의위원입니다.
#신문윤리실천요강:
제1조「언론의 자유, 책임, 독립」①정치권력으로부터의 자유 ②사회·경제 세력으로부터의 독립 ③사회적 책임 ④차별과 편견 금지 ⑤사회적 약자 보호
제2조「취재 준칙」①신분 사칭·위장 금지 ②자료 무단 이용 금지 ③재난 및 사고 취재 ④전화 및 디지털 기기 활용 취재 ⑤도청 및 비밀촬영 금지 ⑥부당한 금전 제공 금지
제3조「보도 준칙」①보도기사의 사실과 의견 구분 ②공정 보도 ③반론의 기회 ④미확인 보도 명시 원칙 ⑤보도자료 검증 ⑥선정 보도 금지 ⑦재난 보도의 신중 ⑧자살 보도의 주의 ⑨피의사실 보도 ⑩표준어 사용
제4조「사법 보도 준칙」①재판 부당 영향 금지 ②판결문 등의 사전보도 금지
제5조「취재원의 명시와 보호」①취재원 보호 ②취재원 명시와 익명 조건 ③제3자 비방과 익명보도 금지 ④취재원과의 비보도 약속
제6조「보도유예 시한」①보도유예 시한 연장 금지 ②보도유예 시한의 효력 상실
제7조「범죄보도와 인권존중」①피의자 및 피고인의 명예 존중 ②피의자·피고인·참고인 등 촬영 신중 ③범죄와 무관한 가족 보호 ④성범죄 등의 2차 피해 방지 ⑤미성년 피의자 신원 보호
제8조「저작물의 전재와 인용」①통신기사의 출처 명시 ②타 언론사 보도 등의 표절 금지 ③출판물 등의 표절 금지 ④사진, 영상 등의 저작권 보호
제9조「평론의 원칙」①사설의 정론성 ②평론의 자유
제10조「편집 지침」①제목의 원칙 ②편집 변경 금지 ③기고문 변경 금지 ④기사 정정 ⑤관련사진 게재 ⑥사진 및 영상 조작 금지 ⑦기사와 광고의 구분 ⑧이용자의 권리 보호 ⑨부당한 재전송 금지
제11조「명예와 신용존중」①명예·신용 훼손 금지 ②사자의 명예 존중
제12조「사생활 보호」①사생활 침해 금지 ②개인정보 무단 검색 등 금지 ③사생활 등의 촬영 및 보도 금지 ④공인의 사생활 보도
제13조「청소년과 어린이 보호」①청소년과 어린이 취재 보도 ②범죄 보도와 청소년, 어린이 보호 ③유해환경으로부터의 보호 ④유괴·납치 보도제한 협조
제14조「정보의 부당이용금지」①소유 주식 등에 관한 보도 제한 ②주식·부동산 등의 부당 거래 금지
제15조「언론인의 품위」①금품수수 및 향응, 청탁 금지 ②부당한 집단 영향력 행사 금지 ③광고·판매 등 영업행위 금지
제16조「공익의 정의」①국가 안전 등 ②공중 안녕 ③범죄의 폭로 ④공중의 오도 방지"

/-- `parse_regulation_dict()`: parse REGULATION into the article dictionary. -/
def parse_regulation_dict : List (List Char × RegArticle) :=
  (splitLines REGULATION.data).filterMap parseArticleLine

/-- `REGULATION_DICT = parse_regulation_dict()`. -/
def REGULATION_DICT : List (List Char × RegArticle) := parse_regulation_dict

/-! ## Citation correction (`correct_article_reference`) -/

/-- The parsed citation groups of one match of the correction pattern. -/
structure Citation where
  num : List Char
  name : List Char
  glyph : Char
deriving DecidableEq

/-- One `\([^)]*\)` group: consume up to and including the first `)`. -/
def parenChunk : List Char → Option (List Char × List Char)
  | [] => none
  | c :: cs =>
    if c = ')' then some ([')'], cs)
    else
      match parenChunk cs with
      | some (con, r) => some (c :: con, r)
      | none => none

/-- Fueled worker for `takeParens`. -/
def takeParensF : Nat → List Char → (List Char × List Char)
  | 0, l => ([], l)
  | fuel+1, l =>
    match l with
    | '(' :: rest =>
      match parenChunk rest with
      | some (con, r2) =>
        let r := takeParensF fuel r2
        ('(' :: con ++ r.1, r.2)
      | none => ([], l)
    | _ => ([], l)

/-- `(?:\([^)]*\))*`: greedily consume consecutive parenthetical groups. -/
def takeParens (l : List Char) : List Char × List Char := takeParensF l.length l

/-- `(?:항|호)?`: the optional single-character suffix consumed after the
ordinal glyph. -/
def sufOf : List Char → List Char
  | '항' :: _ => ['항']
  | '호' :: _ => ['호']
  | _ => []

/-- One anchored attempt of
`제(\d+)조「([^」]+)」([①②③④⑤⑥⑦⑧⑨⑩])(?:항|호)?(?:\([^)]*\))*`
at the head of the text: the groups, the whole matched text, and the rest. -/
def matchCitation (l : List Char) : Option (Citation × List Char × List Char) :=
  match l with
  | '제' :: r1 =>
    match chSpan Char.isDigit r1 with
    | (ds, r2) =>
      if ds = [] then none
      else
        match r2 with
        | '조' :: '「' :: r3 =>
          match chSpan (fun c => !(c = '」')) r3 with
          | (nm, r4) =>
            if nm = [] then none
            else
              match r4 with
              | '」' :: g :: r5 =>
                if isGlyph g then
                  let suf := sufOf r5
                  let r6 := r5.drop suf.length
                  let pp := takeParens r6
                  some (⟨ds, nm, g⟩,
                    '제' :: ds ++ '조' :: '「' :: nm ++ '」' :: g :: (suf ++ pp.1),
                    pp.2)
                else none
              | _ => none
        | _ => none
  | _ => none

/-- The canonical citation text `제{num}조「{name}」{glyph}`. -/
def citeText (num name : List Char) (g : Char) : List Char :=
  '제' :: num ++ '조' :: '「' :: name ++ '」' :: [g]

/-- `replace_match` inside `correct_article_reference` (the source also
computes `cited_name.strip()` but never uses it). -/
def replaceMatch (cit : Citation) (whole : List Char) : List Char :=
  match REGULATION_DICT.lookup cit.num with
  | some art =>
    match art.items.lookup cit.glyph with
    | some content => citeText cit.num art.name cit.glyph ++ '(' :: content ++ [')']
    | none => citeText cit.num art.name cit.glyph
  | none => whole

/-- Fueled worker for `reSub`. -/
def reSubF : Nat → List Char → List Char
  | 0, l => l
  | fuel+1, l =>
    match matchCitation l with
    | some (cit, whole, rest) => replaceMatch cit whole ++ reSubF fuel rest
    | none =>
      match l with
      | [] => []
      | c :: cs => c :: reSubF fuel cs

/-- `re.sub(pattern, replace_match, text)`: left-to-right, non-overlapping,
single pass over the input (never over its own output). -/
def reSub (l : List Char) : List Char := reSubF l.length l

/-- `correct_article_reference(text)`. -/
def correct_article_reference (text : String) : String := ⟨reSub text.data⟩

/-- Whether any position of the text starts a citation-pattern match. -/
def hasCitation : List Char → Bool
  | [] => false
  | c :: cs => (matchCitation (c :: cs)).isSome || hasCitation cs

/-! ## Markers and tallies (`decide_node` / Streamlit search step) -/

/-- The general violation marker `'위반'`. -/
def MARKER_V : List Char := "위반".data

/-- The spaced no-violation marker `'위반 없음'`. -/
def MARKER_NV1 : List Char := "위반 없음".data

/-- The unspaced no-violation marker `'위반없음'`. -/
def MARKER_NV2 : List Char := "위반없음".data

/-- `'위반' in x and '위반 없음' not in x and '위반없음' not in x`. -/
def violP (x : List Char) : Bool :=
  containsSub MARKER_V x && !containsSub MARKER_NV1 x && !containsSub MARKER_NV2 x

/-- `'위반 없음' in x or '위반없음' in x`. -/
def noViolP (x : List Char) : Bool :=
  containsSub MARKER_NV1 x || containsSub MARKER_NV2 x

/-- The per-line counting loop of `decide_node` (violation tally,
no-violation tally). -/
def tallyLines (lines : List (List Char)) : Nat × Nat :=
  lines.foldl
    (fun t line =>
      if violP line then (t.1 + 1, t.2)
      else if noViolP line then (t.1, t.2 + 1)
      else t)
    (0, 0)

/-- `decide_node`'s tallies: counted over `similar_cases.split('\n')` only when
`similar_cases` is truthy. -/
def similarCasesTally (similar_cases : String) : Nat × Nat :=
  if similar_cases = "" then (0, 0)
  else tallyLines (splitLines similar_cases.data)

/-- The per-reason counting loop of `analyze_article_streamlit` (one check per
retrieved case, on the raw reason). -/
def tallyReasonsSt (reasons : List (List Char)) : Nat × Nat :=
  reasons.foldl
    (fun t reason =>
      if violP reason then (t.1 + 1, t.2)
      else if noViolP reason then (t.1, t.2 + 1)
      else t)
    (0, 0)

/-- `f"{i+1}. {reason}"` numbering of the retrieved cases, starting at `i0`. -/
def numberCasesFrom : Nat → List (List Char) → List (List Char)
  | _, [] => []
  | i, r :: rs => (natDecimal i ++ '.' :: ' ' :: r) :: numberCasesFrom (i+1) rs

/-- The numbered case list built by the search stage. -/
def numberCases (reasons : List (List Char)) : List (List Char) :=
  numberCasesFrom 1 reasons

/-- The `similar_cases` string built from the retrieved reasons, and the
tallies `decide_node` then computes from it. -/
def decideTallyOfReasons (reasons : List (List Char)) : Nat × Nat :=
  similarCasesTally ⟨joinWithNewline (numberCases reasons)⟩

/-! ## Pipeline state, environment and prompts -/

/-- The dictionary returned by `extract_article` (all keys always present,
values possibly `None`). -/
structure ArticleD where
  title : Option String
  text : Option String
  image_url : Option String
deriving DecidableEq

/-- `review_result` entry of the state. -/
structure ReviewResult where
  passed : Bool
  issues : String
  final_decision : String
deriving DecidableEq

/-- `AnalysisState` (TypedDict); `none` models a missing key or `None`. -/
structure AnalysisState where
  url : String
  article : Option ArticleD
  image_desc : Option String
  similar_cases : Option String
  decision : Option String
  review_result : Option ReviewResult
  error : Option String
  violation_count : Option Nat
deriving DecidableEq

/-- A fetched image, abstracted to the PIL operations the code performs.
Pixel data is not modelled; the constructors record the processing tree. -/
inductive PImage where
  | src (mode : String)
  | new (mode : String) (color : Nat × Nat × Nat)
  | paste (bg : PImage) (img : PImage) (maskLastBand : Bool)
  | convert (img : PImage) (target : String)
deriving DecidableEq

/-- The PIL `mode` of a processed image. -/
def PImage.mode : PImage → String
  | .src m => m
  | .new m _ => m
  | .paste bg _ _ => bg.mode
  | .convert _ t => t

/-- External collaborators of the LangGraph pipeline, as oracles:
article extractor, image fetch+open, JPEG+base64 encoding, the two kinds of
generation calls, and the vector search (returning case reasons).
`Except.error` models a raised exception. -/
structure Env where
  extract : String → Option ArticleD
  fetchImage : String → Except String PImage
  encodeJpeg : PImage → Nat → String
  geminiText : String → Except String String
  geminiImage : String → String → Except String String
  search : String → Except String (List String)

/-- Python `f"{article.get('title', '')}"`: missing article gives `''`, a
present-but-`None` title renders as `"None"`. -/
def getTitle : Option ArticleD → String
  | none => ""
  | some a =>
    match a.title with
    | some t => t
    | none => "None"

/-- `article.get('text', '')` (within the workflow the extract stage
guarantees a truthy text whenever the article is present; a `None` text would
raise on slicing in Python and is modelled as `''`). -/
def getText : Option ArticleD → String
  | none => ""
  | some a => a.text.getD ""

/-- The INST_PROMPT constant (verbatim from the source). -/
def INST_PROMPT : String := "#심의 지침:
1. **보수적 판단 원칙**: 신문윤리실천요강을 체계적으로 검토하되, 매우 보수적으로 판단
2. **명백하고 심각한 위반만 지적**: 의심스럽거나 경미하거나 불분명한 사안은 모두 \"위반 없음\"
3. 유사 사례를 참고하되, 해당 기사의 구체적 내용과 맥락을 중심으로 독립적으로 판단
4. **특별 주의사항**:
   - 특정 단체/기업의 활동을 지나치게 칭찬하고 홍보하는 내용 → 제1조②(사회·경제 세력으로부터의 독립) 또는 제10조⑦(기사와 광고의 구분) 적용 검토
   - 단순히 단체 활동을 소개하는 수준은 위반 아님. 명백한 홍보/광고 목적이어야 함

#작성 형식 (반드시 정확히 준수):

**[위반 없음 시] - 절대 엄수:**
- 오직 \"위반 없음\" 글자만 출력. 어떠한 추가 설명, 이유, 코멘트도 절대 금지

**[위반 시] - 정확히 준수:**
아래 4단계를 반드시 순서대로 따르되, \"1단계\", \"2단계\" 등의 소제목 없이 자연스러운 문장으로 연결:
1단계) 기사 요약 2~3문장
   - \"위 기사는 ○○○에 대해 보도하면서...\" 형식으로 시작
2단계) 문제점 지적 1~2문장
   - \"그러나 이 보도는...\", \"하지만...\" 등으로 문제점 명확히 지적
3단계) 규정 근거 1~2문장
   - 신문윤리실천요강을 바탕으로 문제의 위반 정당성을 제시
4단계) 결론 문장 (정확히 이 형식 준수)
   - \"따라서 위 보도는 신문윤리실천요강 제○조「조항명」○항(세부내용)을 위반했다고 인정하여 주문과 같이 결정한다.\"
- 전체 6문장 이상
- 유사 사례의 자연스러운 문장체 참고
- \"1)\", \"2)\", \"3)\" 등의 번호나 소제목 절대 사용 금지"

/-- The steering note appended when at least 4 similar cases are
no-violation. -/
def NO_VIOLATION_NOTE (n : Nat) : String :=
  "\n\n**중요**: 유사 사례 5개 중 " ++ (⟨natDecimal n⟩ : String)
    ++ "개가 \x27위반 없음\x27입니다. 4개 이상이므로 이 기사도 \x27위반 없음\x27을 강력하게 고려하십시오."

/-- The drafting prompt built by `decide_node`, exactly as in the source:
base prompt, then the image block if `image_desc` is truthy, then the
similar-cases block if `similar_cases` is truthy, and within that block the
steering note if `no_violation_count >= 4`. -/
def decide_prompt (article : Option ArticleD) (image_desc : Option String)
    (similar_cases : String) (no_violation_count : Nat) : String :=
  let base := REGULATION ++ "\n\n" ++ INST_PROMPT ++ "\n\n#기사:\n"
    ++ getTitle article ++ " " ++ take2000 (getText article)
  let p1 := if pyTruthy image_desc then base ++ "\n\n#이미지:\n" ++ image_desc.getD "" else base
  if similar_cases = "" then p1
  else
    let p2 := p1 ++ "\n\n#유사사례:\n" ++ similar_cases
    if 4 ≤ no_violation_count then p2 ++ NO_VIOLATION_NOTE no_violation_count else p2

/-- The review prompt built by `review_node`. -/
def review_prompt (article : Option ArticleD) (decision : String) : String :=
  "당신은 신문윤리위원회 검토 담당자입니다. 생성된 심의문을 검토하고 수정하세요.\n\n#분석 대상 기사:\n제목: "
    ++ getTitle article ++ "\n본문: " ++ take2000 (getText article)
    ++ "\n\n#생성된 심의문:\n" ++ decision
    ++ "\n\n#신문윤리실천요강:\n" ++ REGULATION
    ++ "\n\n#검토 임무 (반드시 준수):
1. **조항 정확성**: 인용된 조항이 신문윤리실천요강에 정확히 존재하는지 확인(조항 번호, 조항명 대조)하고 틀린 부분 수정
2. **기사 관련성**: 심의문이 실제 기사 내용과 일치하는지 확인(환각 내용 삭제)하고 필요시 수정
3. **형식 검증 및 수정**:
   - \"1)\", \"2)\", \"3)\" 등의 번호나 소제목이 있으면 모두 삭제하고 자연스러운 문장체로 수정
   - 반드시: 기사 요약(2~3문장) → 문제점(1~2문장) → 근거(1~2문장) → 결론(\"따라서 위 보도는...\") 순서 준수
4. **검토 의견 완전 제거**: \"심의문에서 언급된...\", \"확인되지 않습니다\", \"검토 결과...\" 등의 검토 의견을 절대 포함하지 말 것
   - 검토자의 메타적 코멘트는 모두 삭제
   - 오직 심의문 본문만 출력

수정된 최종 심의문만 출력하시오 (검토 의견 절대 포함 금지):"

/-- Python `str.strip()` on a `String`. -/
def stripS (s : String) : String := ⟨stripWs s.data⟩

/-! ## The five stage functions and the workflow -/

/-- `extract_node`: run the extractor; on no article or falsy text set
`error` and return, otherwise store the article. -/
def extract_node (env : Env) (s : AnalysisState) : AnalysisState :=
  match env.extract s.url with
  | none => { s with error := some "기사 추출 실패" }
  | some art =>
    if pyTruthy art.text then { s with article := some art }
    else { s with error := some "기사 추출 실패" }

/-- `image_node`: fetch and normalize the article image, describe it with a
generation call; any failure yields `image_desc = None`. -/
def normalize_image (img : PImage) : PImage :=
  if img.mode = "RGBA" then .paste (.new "RGB" (255, 255, 255)) img true
  else if img.mode = "RGB" then img
  else img.convert "RGB"

/-- `image_node` proper. -/
def image_node (env : Env) (s : AnalysisState) : AnalysisState :=
  let img_url : Option String :=
    match s.article with
    | none => none
    | some a => a.image_url
  if pyTruthy img_url then
    match env.fetchImage (img_url.getD "") with
    | .error _ => { s with image_desc := none }
    | .ok img =>
      let b64 := env.encodeJpeg (normalize_image img) 85
      match env.geminiImage "이 이미지를 한국어로 상세히 설명해주세요." b64 with
      | .ok d => { s with image_desc := some d }
      | .error _ => { s with image_desc := none }
  else { s with image_desc := none }

/-- `search_node`: query the vector store and join the numbered case reasons;
on failure `similar_cases = ""`. -/
def search_node (env : Env) (s : AnalysisState) : AnalysisState :=
  let text := getTitle s.article ++ " " ++ take2000 (getText s.article)
  match env.search text with
  | .ok reasons =>
    { s with similar_cases := some ⟨joinWithNewline (numberCases (reasons.map String.data))⟩ }
  | .error _ => { s with similar_cases := some "" }

/-- `decide_node`: tally the similar cases, build the drafting prompt, call
generation; on failure set `error` and an empty decision. -/
def decide_node (env : Env) (s : AnalysisState) : AnalysisState :=
  let similar_cases := s.similar_cases.getD ""
  let t := similarCasesTally similar_cases
  let prompt := decide_prompt s.article s.image_desc similar_cases t.2
  match env.geminiText prompt with
  | .ok decision =>
    { s with decision := some decision, violation_count := some t.1 }
  | .error e =>
    { s with error := some ("심의문 생성 실패: " ++ e), decision := some "",
             violation_count := some t.1 }

/-- `review_node`; the second component counts the generation calls issued
(0 on the no-violation short circuit, 1 otherwise). -/
def review_node (env : Env) (s : AnalysisState) : AnalysisState × Nat :=
  let decision := s.decision.getD ""
  if containsSub MARKER_NV1 decision.data || containsSub MARKER_NV2 decision.data then
    ({ s with review_result := some ⟨true, "", "위반 없음"⟩ }, 0)
  else
    match env.geminiText (review_prompt s.article decision) with
    | .ok fd =>
      ({ s with review_result := some ⟨true, "", correct_article_reference (stripS fd)⟩ }, 1)
    | .error e =>
      ({ s with review_result := some ⟨false, "검토 오류: " ++ e, decision⟩ }, 1)

/-- The node list of `create_workflow`, in edge order: the graph is the
unconditional linear chain extract → image → search → decide → review → END. -/
def workflow_nodes (env : Env) : List (String × (AnalysisState → AnalysisState)) :=
  [("extract", extract_node env),
   ("image", image_node env),
   ("search", search_node env),
   ("decide", decide_node env),
   ("review", fun s => (review_node env s).1)]

/-- Run the compiled workflow, recording which stage functions executed. -/
def run_workflow (env : Env) (s0 : AnalysisState) : AnalysisState × List String :=
  (workflow_nodes env).foldl (fun acc n => (n.2 acc.1, acc.2 ++ [n.1])) (s0, [])

/-- `{"url": url}` initial state of `app.invoke`. -/
def initState (url : String) : AnalysisState :=
  ⟨url, none, none, none, none, none, none, none⟩

/-- `analyze_article(url)`: run the workflow; a truthy `error` yields `None`. -/
def analyze_article (env : Env) (url : String) : Option AnalysisState :=
  let result := (run_workflow env (initState url)).1
  match result.error with
  | some e => if e = "" then some result else none
  | none => some result

/-! ## The scraper (`news_text_scraper.extract_article`) -/

/-- A Python exception, as relevant here: `requests.HTTPError` with a status
code, or any other exception. -/
inductive PyExc where
  | http (status : Nat)
  | other (msg : String)
deriving DecidableEq

/-- External collaborators of the scraper: the HTTP fetch (raising on bad
status), the two parsers applied to fetched HTML, the Playwright renderer
(which catches its own errors and returns `None`), and the two parsers
applied to rendered HTML. -/
structure ScrapeEnv where
  fetch : String → Except PyExc String
  traf : String → Option ArticleD
  np : String → Option ArticleD
  render : String → Option String
  trafR : String → Option ArticleD
  npR : String → Option ArticleD

/-- `fetch_with_headers`: `requests.get(...)` + `raise_for_status()`. -/
def fetch_with_headers (env : ScrapeEnv) (url : String) : Except PyExc String :=
  env.fetch url

/-- `extract_trafilatura`: its `try  except Exception` catches every raised
exception (including the `HTTPError` from the fetch) and returns `None`. -/
def extract_trafilatura (env : ScrapeEnv) (url : String) : Except PyExc (Option ArticleD) :=
  match fetch_with_headers env url with
  | .error _ => .ok none
  | .ok html => .ok (env.traf html)

/-- `extract_newspaper`, same catch-all structure. -/
def extract_newspaper (env : ScrapeEnv) (url : String) : Except PyExc (Option ArticleD) :=
  match fetch_with_headers env url with
  | .error _ => .ok none
  | .ok html => .ok (env.np html)

/-- `extract_playwright_trafilatura` (the renderer already returns `None` on
its own errors). -/
def extract_playwright_trafilatura (env : ScrapeEnv) (url : String) :
    Except PyExc (Option ArticleD) :=
  match env.render url with
  | none => .ok none
  | some html => .ok (env.trafR html)

/-- `extract_playwright_newspaper`. -/
def extract_playwright_newspaper (env : ScrapeEnv) (url : String) :
    Except PyExc (Option ArticleD) :=
  match env.render url with
  | none => .ok none
  | some html => .ok (env.npR html)

/-- `if not result[key] and data.get(key): result[key] = data[key]`. -/
def mergeField (cur new : Option String) : Option String :=
  if pyTruthy cur then cur else if pyTruthy new then new else cur

/-- All of title, text and image present and truthy. -/
def fullResult (r : ArticleD) : Bool :=
  pyTruthy r.title && pyTruthy r.text && pyTruthy r.image_url

/-- The extractor loop of `extract_article`: each strategy is attempted in
order; a raised `HTTPError` with status 403/429 would be re-raised and any
other exception swallowed (the `except` clauses of the loop body), and
partial results are merged. Returns the outcome and how many strategies ran. -/
def extractLoop (env : ScrapeEnv) (url : String) :
    List (ScrapeEnv → String → Except PyExc (Option ArticleD)) → ArticleD → Nat →
      Except PyExc (Option ArticleD) × Nat
  | [], result, n =>
    (if pyTruthy result.title || pyTruthy result.text then .ok (some result) else .ok none, n)
  | ex :: rest, result, n =>
    match ex env url with
    | .error (.http st) =>
      if st = 403 ∨ st = 429 then (.error (.http st), n + 1)
      else extractLoop env url rest result (n + 1)
    | .error (.other _) => extractLoop env url rest result (n + 1)
    | .ok none => extractLoop env url rest result (n + 1)
    | .ok (some data) =>
      let r' : ArticleD := ⟨mergeField result.title data.title,
        mergeField result.text data.text, mergeField result.image_url data.image_url⟩
      if fullResult r' then (.ok (some r'), n + 1)
      else extractLoop env url rest r' (n + 1)

/-- `extract_article(url)` with the Playwright availability flag. -/
def scraper_extract_article (env : ScrapeEnv) (pw : Bool) (url : String) :
    Except PyExc (Option ArticleD) × Nat :=
  extractLoop env url
    ([extract_trafilatura, extract_newspaper] ++
      (if pw then [extract_playwright_trafilatura, extract_playwright_newspaper] else []))
    ⟨none, none, none⟩ 0

/-! ## Spec-side image predicates and concrete environments -/

/-- Spec-side reading of "image with transparency": a PIL mode that carries
an alpha band (this is the second definition of a refinement comparison; the
code-side behaviour is `normalize_image`). -/
def specHasTransparency (mode : String) : Bool :=
  mode = "RGBA" || mode = "LA" || mode = "PA" || mode = "RGBa" || mode = "La"

/-- Whether the top of the processing tree is a composite onto a solid white
RGB background using the image's last band as mask. -/
def isWhiteComposite : PImage → Bool
  | .paste (.new "RGB" (255, 255, 255)) _ true => true
  | _ => false

/-- A stub pipeline environment for concrete witnesses. -/
def envStub : Env :=
  { extract := fun _ => none
    fetchImage := fun _ => .error "연결 실패"
    encodeJpeg := fun _ _ => ""
    geminiText := fun _ => .error "호출 실패"
    geminiImage := fun _ _ => .error "호출 실패"
    search := fun _ => .error "컬렉션 없음" }

/-- An environment whose extractor finds nothing but whose generation and
search calls still answer; used to exhibit the post-error run. -/
def env_fail : Env :=
  { extract := fun _ => none
    fetchImage := fun _ => .error "연결 실패"
    encodeJpeg := fun _ _ => ""
    geminiText := fun _ => .ok "위반 없음"
    geminiImage := fun _ _ => .error "호출 실패"
    search := fun _ => .error "컬렉션 없음" }

/-- An environment whose generation call raises; used for the review-failure
fallback. -/
def envErr : Env :=
  { extract := fun _ => none
    fetchImage := fun _ => .error "연결 실패"
    encodeJpeg := fun _ _ => ""
    geminiText := fun _ => .error "쿼터 초과"
    geminiImage := fun _ _ => .error "호출 실패"
    search := fun _ => .error "컬렉션 없음" }

/-- An environment delivering a concrete RGBA image and a description. -/
def envImg : Env :=
  { extract := fun _ => none
    fetchImage := fun _ => .ok (.src "RGBA")
    encodeJpeg := fun _ _ => "b64bytes"
    geminiText := fun _ => .error "호출 실패"
    geminiImage := fun _ _ => .ok "투명 배경의 로고 이미지"
    search := fun _ => .error "컬렉션 없음" }

/-- A scraper environment in which every fetch is refused with HTTP 403 and
the Playwright renderer yields nothing. -/
def env403 : ScrapeEnv :=
  { fetch := fun _ => .error (.http 403)
    traf := fun _ => none
    np := fun _ => none
    render := fun _ => none
    trafR := fun _ => none
    npR := fun _ => none }

/-! ## Idempotence analysis of the citation corrector (C10) -/

/-- A character that can neither be consumed as the optional `항|호` suffix
nor open or close a parenthetical group. -/
def cleanChar (c : Char) : Bool :=
  !(c = '항' || c = '호' || c = '(' || c = ')')

/-- A text all of whose characters are clean. -/
def cleanText (l : List Char) : Bool := l.all cleanChar

/-- Success of the `[^」]+」glyph` portion of the pattern at the head of the
text (the extent of the trailing optional parts never affects success). -/
def nameStage (l : List Char) : Bool :=
  match chSpan (fun c => !(c = '」')) l with
  | (nm, b :: g :: _) => !(nm = []) && (b = '」') && isGlyph g
  | _ => false

/-- As `nameStage`, but with at least one name character already consumed. -/
def nameStageTail (l : List Char) : Bool :=
  match chSpan (fun c => !(c = '」')) l with
  | (_, b :: g :: _) => (b = '」') && isGlyph g
  | _ => false

/-- Success of the pattern after `제(\d+)조「` has been consumed. -/
def citeAfterNum (r2 : List Char) : Bool :=
  match r2 with
  | a :: b :: r3 => (a = '조') && (b = '「') && nameStage r3
  | _ => false

/-- Success of the pattern after the leading `제`. -/
def citeAfterJe (r1 : List Char) : Bool :=
  match chSpan Char.isDigit r1 with
  | (ds, r2) => !(ds = []) && citeAfterNum r2

/-- Whether the citation pattern matches at the head of the text. -/
def citeSuccess (l : List Char) : Bool :=
  match l with
  | c :: r1 => (c = '제') && citeAfterJe r1
  | _ => false

/-- The simulation relation between a text and its image under the
`correct_article_reference` scan: gap characters are copied (where no match
starts) and matched citations are replaced. -/
inductive ReSubRel : List Char → List Char → Prop where
  | nil : ReSubRel [] []
  | step (c : Char) (t u : List Char) :
      matchCitation (c :: t) = none → ReSubRel t u → ReSubRel (c :: t) (c :: u)
  | repl (cit : Citation) (w t u : List Char) :
      matchCitation (w ++ t) = some (cit, w, t) → ReSubRel t u →
      ReSubRel (w ++ t) (replaceMatch cit w ++ u)

section Theorems

set_option maxRecDepth 40000

/-! ## C2: no-violation short circuit of the review stage -/

/-- C2: whenever the draft decision contains the no-violation marker in
either spelling, the review stage short-circuits: `final_decision` is exactly
the canonical marker `위반 없음`, `passed = true`, and no second generation
call is issued (call count 0), regardless of the surrounding draft text. -/
theorem claim_C2 (env : Env) (s : AnalysisState)
    (h : containsSub MARKER_NV1 (s.decision.getD "").data = true
       ∨ containsSub MARKER_NV2 (s.decision.getD "").data = true) :
    review_node env s
      = ({ s with review_result := some ⟨true, "", "위반 없음"⟩ }, 0) := by
  unfold review_node
  rcases h with h | h <;> simp [h]

/-- Witness for C2 at a concrete draft with surrounding text. -/
theorem claim_C2_witness :
    (containsSub MARKER_NV1
        ((({ initState "u" with decision := some "검토 결과 이 기사는 위반 없음 으로 판단됨" } :
          AnalysisState).decision.getD "").data) = true
      ∨ containsSub MARKER_NV2
        ((({ initState "u" with decision := some "검토 결과 이 기사는 위반 없음 으로 판단됨" } :
          AnalysisState).decision.getD "").data) = true)
    ∧ review_node envStub
        { initState "u" with decision := some "검토 결과 이 기사는 위반 없음 으로 판단됨" }
      = ({ initState "u" with
            decision := some "검토 결과 이 기사는 위반 없음 으로 판단됨"
            review_result := some ⟨true, "", "위반 없음"⟩ }, 0) :=
  ⟨Or.inl (by decide),
    claim_C2 envStub
      { initState "u" with decision := some "검토 결과 이 기사는 위반 없음 으로 판단됨" }
      (Or.inl (by decide))⟩

/-! ## C7: review-failure fallback -/

/-- C7: if the draft does not short-circuit and the second generation call
raises, the review stage returns the unreviewed draft verbatim (no citation
correction applied), flagged `passed = false` with the failure recorded in
`issues`, and leaves the `error` field untouched so the pipeline does not
abort. -/
theorem claim_C7 (env : Env) (s : AnalysisState) (e : String)
    (h1 : containsSub MARKER_NV1 (s.decision.getD "").data = false)
    (h2 : containsSub MARKER_NV2 (s.decision.getD "").data = false)
    (h3 : env.geminiText (review_prompt s.article (s.decision.getD "")) = .error e) :
    review_node env s
      = ({ s with review_result := some ⟨false, "검토 오류: " ++ e, s.decision.getD ""⟩ }, 1)
    ∧ ((review_node env s).1).error = s.error := by
  unfold review_node
  simp [h1, h2, h3]

/-- Witness for C7 at a concrete failing environment. -/
theorem claim_C7_witness :
    (containsSub MARKER_NV1
        ((({ initState "u" with decision := some "위 보도는 제1조를 위반했다" } :
          AnalysisState).decision.getD "").data) = false)
    ∧ review_node envErr { initState "u" with decision := some "위 보도는 제1조를 위반했다" }
      = ({ initState "u" with
            decision := some "위 보도는 제1조를 위반했다"
            review_result := some ⟨false, "검토 오류: 쿼터 초과", "위 보도는 제1조를 위반했다"⟩ }, 1) :=
  ⟨by decide,
    ((claim_C7 envErr { initState "u" with decision := some "위 보도는 제1조를 위반했다" }
      "쿼터 초과" (by decide) (by decide) rfl).1)⟩

/-! ## C5: blocked fetch (HTTP 403/429) in the scraper -/

/-- C5 (code bug evidence): with every fetch refused by HTTP 403, the
`HTTPError` raised by `raise_for_status` is swallowed inside each extractor's
catch-all `except Exception`, so `extract_article` never re-raises: all four
strategies are still attempted and the call returns a plain `None` instead of
propagating the blocked-fetch error. -/
theorem claim_C5_codebug :
    scraper_extract_article env403 true "https://blocked.example/a" = (.ok none, 4) := by
  rfl

/-! ## C6: image normalization -/

/-- C6 counterexample to the claim as stated: an `LA`-mode image has
transparency, yet the image stage does not composite it onto a white
background — it falls into the plain `convert('RGB')` branch. -/
theorem claim_C6_counterexample :
    specHasTransparency (PImage.src "LA").mode = true
    ∧ isWhiteComposite (normalize_image (.src "LA")) = false
    ∧ normalize_image (.src "LA") = PImage.convert (.src "LA") "RGB" := by
  decide

/-- C6 (amended): the image stage composites exactly the `RGBA`-mode images
onto a solid white background, converts every other non-`RGB` image directly
to `RGB` (even when it carries transparency), leaves `RGB` images unchanged,
and encodes the normalized image as JPEG at fixed quality 85 before the
description call. -/
theorem claim_C6_amended (env : Env) (s : AnalysisState) (a : ArticleD)
    (u : String) (img : PImage) (d : String)
    (ha : s.article = some a) (hu : a.image_url = some u) (hu2 : ¬(u = ""))
    (hf : env.fetchImage u = .ok img)
    (hg : env.geminiImage "이 이미지를 한국어로 상세히 설명해주세요."
            (env.encodeJpeg (normalize_image img) 85) = .ok d) :
    image_node env s = { s with image_desc := some d }
    ∧ (img.mode = "RGBA" →
        normalize_image img = .paste (.new "RGB" (255, 255, 255)) img true)
    ∧ (¬(img.mode = "RGBA") → ¬(img.mode = "RGB") →
        normalize_image img = img.convert "RGB")
    ∧ (img.mode = "RGB" → normalize_image img = img) := by
  refine ⟨?_, ?_, ?_, ?_⟩
  · unfold image_node
    simp [ha, hu, pyTruthy, hu2, hf, hg]
  · intro hm; unfold normalize_image; simp [hm]
  · intro hm1 hm2; unfold normalize_image; simp [hm1, hm2]
  · intro hm
    unfold normalize_image
    simp [hm]

/-- Witness for C6 (amended) at a concrete RGBA image. -/
theorem claim_C6_amended_witness :
    envImg.fetchImage "http://img" = .ok (.src "RGBA")
    ∧ image_node envImg
        { initState "u" with article := some ⟨some "t", some "x", some "http://img"⟩ }
      = { initState "u" with
            article := some ⟨some "t", some "x", some "http://img"⟩
            image_desc := some "투명 배경의 로고 이미지" } :=
  ⟨rfl,
    (claim_C6_amended envImg
      { initState "u" with article := some ⟨some "t", some "x", some "http://img"⟩ }
      ⟨some "t", some "x", some "http://img"⟩ "http://img" (.src "RGBA")
      "투명 배경의 로고 이미지" rfl rfl (by decide) rfl rfl).1⟩

/-! ## C9: the drafting prompt of the decide stage -/

/-- C9: the drafting prompt is the fixed-order concatenation of the
regulation, the instruction template, the article block (title, a space, and
the body truncated to 2000 characters), the image block iff the description
is truthy, the similar-cases block iff non-empty, and the no-violation
steering note iff the no-violation tally is at least 4. -/
theorem claim_C9 (article : Option ArticleD) (image_desc : Option String)
    (similar_cases : String) :
    decide_prompt article image_desc similar_cases (similarCasesTally similar_cases).2
      = (REGULATION ++ "\n\n" ++ INST_PROMPT ++ "\n\n#기사:\n"
          ++ getTitle article ++ " " ++ take2000 (getText article))
        ++ (if pyTruthy image_desc then "\n\n#이미지:\n" ++ image_desc.getD "" else "")
        ++ (if similar_cases = "" then "" else "\n\n#유사사례:\n" ++ similar_cases)
        ++ (if 4 ≤ (similarCasesTally similar_cases).2 then
              NO_VIOLATION_NOTE (similarCasesTally similar_cases).2 else "") := by
  unfold decide_prompt
  by_cases hs : similar_cases = ""
  · subst hs
    have h0 : ¬(4 ≤ (similarCasesTally "").2) := by decide
    by_cases hi : pyTruthy image_desc <;>
      simp [h0, hi, String.append_assoc, String.append_empty]
  · by_cases hn : 4 ≤ (similarCasesTally similar_cases).2 <;>
      by_cases hi : pyTruthy image_desc <;>
        simp [hs, hn, hi, String.append_assoc, String.append_empty]

/-! ## C1: behaviour of the workflow once `error` is set -/

/-- The image stage never touches the `error` field. -/
theorem image_node_error_eq (env : Env) (s : AnalysisState) :
    (image_node env s).error = s.error := by
  unfold image_node
  dsimp only
  repeat' split
  all_goals rfl

/-- The image stage never touches the `article` field. -/
theorem image_node_article_eq (env : Env) (s : AnalysisState) :
    (image_node env s).article = s.article := by
  unfold image_node
  dsimp only
  repeat' split
  all_goals rfl

/-- The search stage never touches the `error` field. -/
theorem search_node_error_eq (env : Env) (s : AnalysisState) :
    (search_node env s).error = s.error := by
  unfold search_node
  dsimp only
  repeat' split
  all_goals rfl

/-- The review stage never touches the `error` field. -/
theorem review_node_error_eq (env : Env) (s : AnalysisState) :
    ((review_node env s).1).error = s.error := by
  unfold review_node
  dsimp only
  repeat' split
  all_goals rfl

/-- The decide stage either leaves `error` unchanged or sets it to the
nonempty generation-failure message. -/
theorem decide_node_error_cases (env : Env) (s : AnalysisState) :
    (decide_node env s).error = s.error
    ∨ ∃ e, (decide_node env s).error = some ("심의문 생성 실패: " ++ e) := by
  unfold decide_node
  rcases hg : env.geminiText (decide_prompt s.article s.image_desc (s.similar_cases.getD "")
      (similarCasesTally (s.similar_cases.getD "")).2) with e | d
  · exact Or.inr ⟨e, by simp [hg]⟩
  · exact Or.inl (by simp [hg])

/-- The generation-failure message is never the empty string. -/
theorem decide_error_msg_ne_empty (e : String) : ¬("심의문 생성 실패: " ++ e) = "" := by
  intro heq
  have hd := congrArg String.data heq
  rw [String.data_append] at hd
  simp at hd

/-- C1 counterexample to the claim as stated: with an extractor that finds
nothing, `error` is set by the extract stage, yet all four downstream stage
functions still execute — the search stage stored `similar_cases`, the decide
stage called generation and stored a decision, and the review stage produced
a review result, because the compiled graph has only unconditional edges. -/
theorem claim_C1_counterexample :
    (run_workflow env_fail (initState "http://news.example/a")).1.error = some "기사 추출 실패"
    ∧ (run_workflow env_fail (initState "http://news.example/a")).2
        = ["extract", "image", "search", "decide", "review"]
    ∧ (run_workflow env_fail (initState "http://news.example/a")).1.similar_cases = some ""
    ∧ (run_workflow env_fail (initState "http://news.example/a")).1.decision = some "위반 없음"
    ∧ (run_workflow env_fail (initState "http://news.example/a")).1.review_result
        = some ⟨true, "", "위반 없음"⟩ := by
  refine ⟨rfl, rfl, rfl, rfl, rfl⟩

/-- C1 (amended): when extraction fails, `error` is set and `analyze_article`
returns `None`, but every downstream stage function (image, search, decide,
review) still executes — the graph's edges are unconditional — and the error
survives to the end as a truthy string. -/
theorem claim_C1_amended (env : Env) (url : String) (h : env.extract url = none) :
    ¬((run_workflow env (initState url)).1.error = none)
    ∧ (run_workflow env (initState url)).2 = ["extract", "image", "search", "decide", "review"]
    ∧ analyze_article env url = none := by
  have hrun : (run_workflow env (initState url)).1
      = (review_node env (decide_node env (search_node env
          (image_node env (extract_node env (initState url)))))).1 := rfl
  have hs1 : extract_node env (initState url)
      = { initState url with error := some "기사 추출 실패" } := by
    unfold extract_node
    have hu : (initState url).url = url := rfl
    rw [hu, h]
    rfl
  have herr : ∀ e : String, (run_workflow env (initState url)).1.error = some e → ¬(e = "") := by
    intro e he
    rw [hrun, review_node_error_eq] at he
    rcases decide_node_error_cases env
        (search_node env (image_node env (extract_node env (initState url)))) with hc | ⟨e2, hc⟩
    · rw [hc, search_node_error_eq, image_node_error_eq, hs1] at he
      simp only [Option.some.injEq] at he
      subst he
      decide
    · rw [hc] at he
      simp only [Option.some.injEq] at he
      subst he
      exact decide_error_msg_ne_empty e2
  have hne : ¬((run_workflow env (initState url)).1.error = none) := by
    intro hnone
    have he' : (review_node env (decide_node env (search_node env
        (image_node env (extract_node env (initState url)))))).1.error = none := by
      rw [← hrun]; exact hnone
    rw [review_node_error_eq] at he'
    rcases decide_node_error_cases env
        (search_node env (image_node env (extract_node env (initState url)))) with hc | ⟨e2, hc⟩
    · rw [hc, search_node_error_eq, image_node_error_eq, hs1] at he'
      simp at he'
    · rw [hc] at he'
      simp at he'
  refine ⟨hne, rfl, ?_⟩
  unfold analyze_article
  dsimp only
  rcases he : (run_workflow env (initState url)).1.error with _ | e
  · exact absurd he hne
  · simp [herr e he]

/-- Witness for C1 (amended) at the concrete failing environment. -/
theorem claim_C1_amended_witness :
    env_fail.extract "http://u" = none ∧ analyze_article env_fail "http://u" = none :=
  ⟨rfl, (claim_C1_amended env_fail "http://u" rfl).2.2⟩

/-! ## C4: tally invariants -/

/-- A decimal digit character is an ASCII digit. -/
theorem digitChar_isDigit (k : Nat) (hk : k < 10) : (Char.ofNat (48 + k)).isDigit = true := by
  interval_cases k <;> decide

/-- Every character produced by `natDecimalF` onto a digit accumulator is a digit. -/
theorem natDecimalF_mem (f : Nat) : ∀ (n : Nat) (acc : List Char) (c : Char),
    (∀ x ∈ acc, x.isDigit = true) → c ∈ natDecimalF f n acc → c.isDigit = true := by
  induction f with
  | zero => exact fun n acc c hacc hc => hacc c hc
  | succ f ih =>
    intro n acc c hacc hc
    unfold natDecimalF at hc
    dsimp only at hc
    have hd : ∀ x ∈ (Char.ofNat (48 + n % 10) :: acc), x.isDigit = true := by
      intro x hx
      rcases List.mem_cons.mp hx with hx | hx
      · subst hx; exact digitChar_isDigit _ (Nat.mod_lt _ (by norm_num))
      · exact hacc x hx
    by_cases hn : n < 10
    · rw [if_pos hn] at hc
      exact hd c hc
    · rw [if_neg hn] at hc
      exact ih _ _ c hd hc

/-- All characters of `natDecimal n` are digits. -/
theorem natDecimal_digits (n : Nat) : ∀ c ∈ natDecimal n, c.isDigit = true :=
  fun c hc => natDecimalF_mem (n+1) n [] c (by intro x hx; cases hx) hc

/-- A marker whose first character differs from `c` cannot start at `c`. -/
theorem containsSub_cons_of_head_ne (mh : Char) (mt : List Char) (c : Char) (l : List Char)
    (hne : ¬(c = mh)) :
    containsSub (mh :: mt) (c :: l) = containsSub (mh :: mt) l := by
  have h1 : containsSub (mh :: mt) (c :: l)
      = ((mh :: mt).isPrefixOf (c :: l) || containsSub (mh :: mt) l) := rfl
  have h2 : (mh :: mt).isPrefixOf (c :: l) = (mh == c && mt.isPrefixOf l) := rfl
  have h3 : (mh == c) = false := by
    simp only [beq_eq_false_iff_ne, ne_eq]
    exact fun he => hne he.symm
  rw [h1, h2, h3, Bool.false_and, Bool.false_or]

/-- Skipping a prefix none of whose characters equals the marker head. -/
theorem containsSub_append_skip (mh : Char) (mt : List Char) (p l : List Char)
    (hp : ∀ c ∈ p, ¬(c = mh)) :
    containsSub (mh :: mt) (p ++ l) = containsSub (mh :: mt) l := by
  induction p with
  | nil => rfl
  | cons c p ih =>
    rw [List.cons_append, containsSub_cons_of_head_ne mh mt c _ (hp c (by simp))]
    exact ih (fun x hx => hp x (by simp [hx]))

/-- The numbering prefix `f"{i}. "` changes neither tally predicate. -/
theorem numbered_preds (i : Nat) (r : List Char) :
    violP (natDecimal i ++ '.' :: ' ' :: r) = violP r
    ∧ noViolP (natDecimal i ++ '.' :: ' ' :: r) = noViolP r := by
  have hp : ∀ c ∈ (natDecimal i ++ ['.', ' ']), ¬(c = '위') := by
    intro c hc
    rcases List.mem_append.mp hc with hc | hc
    · have hd := natDecimal_digits i c hc
      intro he; subst he; exact absurd hd (by decide)
    · intro he; subst he; simp at hc
  have hassoc : natDecimal i ++ '.' :: ' ' :: r = (natDecimal i ++ ['.', ' ']) ++ r := by
    simp
  have h1 : containsSub MARKER_V (natDecimal i ++ '.' :: ' ' :: r) = containsSub MARKER_V r := by
    rw [hassoc, show MARKER_V = '위' :: "반".data from rfl]
    exact containsSub_append_skip _ _ _ _ hp
  have h2 : containsSub MARKER_NV1 (natDecimal i ++ '.' :: ' ' :: r)
      = containsSub MARKER_NV1 r := by
    rw [hassoc, show MARKER_NV1 = '위' :: "반 없음".data from rfl]
    exact containsSub_append_skip _ _ _ _ hp
  have h3 : containsSub MARKER_NV2 (natDecimal i ++ '.' :: ' ' :: r)
      = containsSub MARKER_NV2 r := by
    rw [hassoc, show MARKER_NV2 = '위' :: "반없음".data from rfl]
    exact containsSub_append_skip _ _ _ _ hp
  unfold violP noViolP
  rw [h1, h2, h3]
  exact ⟨rfl, rfl⟩

/-- Counting a numbering-stable predicate over the numbered cases equals
counting it over the raw reasons. -/
theorem countP_numberCasesFrom (p : List Char → Bool)
    (hp : ∀ i r, p (natDecimal i ++ '.' :: ' ' :: r) = p r) :
    ∀ (rs : List (List Char)) (i : Nat), (numberCasesFrom i rs).countP p = rs.countP p := by
  intro rs
  induction rs with
  | nil => intro i; rfl
  | cons r rs ih =>
    intro i
    simp only [numberCasesFrom, List.countP_cons, ih (i+1), hp i r]

/-- A case counted as violation is not counted as no-violation. -/
theorem violP_noViolP (x : List Char) : violP x = true → noViolP x = false := by
  unfold violP noViolP
  intro h
  simp only [Bool.and_eq_true, Bool.not_eq_true'] at h
  simp [h.1.2, h.2]

/-- The tally fold with a generalized accumulator. -/
theorem tally_foldl_general (lines : List (List Char)) : ∀ (a b : Nat),
    lines.foldl
      (fun t line =>
        if violP line then (t.1 + 1, t.2)
        else if noViolP line then (t.1, t.2 + 1)
        else t)
      (a, b)
    = (a + lines.countP violP, b + lines.countP noViolP) := by
  induction lines with
  | nil => intro a b; simp
  | cons l ls ih =>
    intro a b
    simp only [List.foldl_cons, List.countP_cons]
    by_cases h1 : violP l
    · have h2 := violP_noViolP l h1
      rw [if_pos h1]
      rw [ih (a+1) b]
      simp [h1, h2]
      omega
    · rw [if_neg h1]
      by_cases h2 : noViolP l
      · rw [if_pos h2, ih a (b+1)]
        simp [h1, h2]
        omega
      · rw [if_neg h2, ih a b]
        simp [h1, h2]

/-- `tallyLines` counts exactly the two predicates. -/
theorem tallyLines_eq (lines : List (List Char)) :
    tallyLines lines = (lines.countP violP, lines.countP noViolP) := by
  unfold tallyLines
  rw [tally_foldl_general lines 0 0]
  simp

/-- The two tallies of disjoint predicates never exceed the list length. -/
theorem countP_sum_le (l : List (List Char)) :
    l.countP violP + l.countP noViolP ≤ l.length := by
  induction l with
  | nil => simp
  | cons x xs ih =>
    simp only [List.countP_cons, List.length_cons]
    by_cases h : violP x
    · have h2 := violP_noViolP x h
      simp [h, h2]
      omega
    · by_cases h2 : noViolP x <;> simp [h, h2] <;> omega

/-- A text with no newline splits into itself. -/
theorem splitLines_no_newline (l : List Char) (h : ¬('\n' ∈ l)) : splitLines l = [l] := by
  induction l with
  | nil => rfl
  | cons c cs ih =>
    have hc : ¬(c = '\n') := fun he => h (by simp [he])
    have hcs : ¬('\n' ∈ cs) := fun hx => h (by simp [hx])
    simp [splitLines, hc, ih hcs]

/-- Splitting after a newline-free prefix. -/
theorem splitLines_append_newline (a t : List Char) (ha : ¬('\n' ∈ a)) :
    splitLines (a ++ '\n' :: t) = a :: splitLines t := by
  induction a with
  | nil => simp [splitLines]
  | cons c a ih =>
    have hc : ¬(c = '\n') := fun he => ha (by simp [he])
    have ha' : ¬('\n' ∈ a) := fun hx => ha (by simp [hx])
    simp [splitLines, hc, ih ha']

/-- `split('\n')` inverts `'\n'.join` on nonempty newline-free line lists. -/
theorem splitLines_joinWithNewline : ∀ (L : List (List Char)), L ≠ [] →
    (∀ l ∈ L, ¬('\n' ∈ l)) → splitLines (joinWithNewline L) = L := by
  intro L
  induction L with
  | nil => intro h; exact absurd rfl h
  | cons l ls ih =>
    intro _ hnl
    cases ls with
    | nil => exact splitLines_no_newline l (hnl l (by simp))
    | cons l2 ls2 =>
      have hj : joinWithNewline (l :: l2 :: ls2) = l ++ '\n' :: joinWithNewline (l2 :: ls2) := rfl
      rw [hj, splitLines_append_newline _ _ (hnl l (by simp)),
        ih (by simp) (fun x hx => hnl x (by simp [hx]))]

/-- Numbered lines of newline-free reasons are newline-free. -/
theorem numbered_no_newline (i : Nat) (r : List Char) (hr : ¬('\n' ∈ r)) :
    ¬('\n' ∈ (natDecimal i ++ '.' :: ' ' :: r)) := by
  intro h
  rcases List.mem_append.mp h with h | h
  · exact absurd (natDecimal_digits i _ h) (by decide)
  · rcases List.mem_cons.mp h with h | h
    · exact absurd h (by decide)
    · rcases List.mem_cons.mp h with h | h
      · exact absurd h (by decide)
      · exact hr h

/-- All numbered lines are newline-free when the reasons are. -/
theorem numberCasesFrom_no_newline : ∀ (rs : List (List Char)) (i : Nat),
    (∀ r ∈ rs, ¬('\n' ∈ r)) → ∀ l ∈ numberCasesFrom i rs, ¬('\n' ∈ l) := by
  intro rs
  induction rs with
  | nil => intro i _ l hl; cases hl
  | cons r rs ih =>
    intro i h l hl
    rcases List.mem_cons.mp hl with hl | hl
    · subst hl
      exact numbered_no_newline i r (h r (by simp))
    · exact ih (i+1) (fun x hx => h x (by simp [hx])) l hl

/-- The `similar_cases` string of a nonempty case list is nonempty. -/
theorem join_numbered_ne_nil (r : List Char) (rs : List (List Char)) :
    ¬(joinWithNewline (numberCases (r :: rs)) = []) := by
  unfold numberCases numberCasesFrom
  cases hrs : numberCasesFrom 2 rs with
  | nil =>
    intro h
    unfold joinWithNewline at h
    simp at h
  | cons x xs =>
    intro h
    unfold joinWithNewline at h
    simp at h

/-- `decide_node`'s tallies over newline-free reasons count exactly the two
predicates over the raw reasons. -/
theorem decideTally_eq (reasons : List (List Char)) (h : ∀ r ∈ reasons, ¬('\n' ∈ r)) :
    decideTallyOfReasons reasons = (reasons.countP violP, reasons.countP noViolP) := by
  cases reasons with
  | nil => rfl
  | cons r rs =>
    unfold decideTallyOfReasons similarCasesTally
    have hne : ¬((⟨joinWithNewline (numberCases (r :: rs))⟩ : String) = "") := by
      rw [String.ext_iff]
      exact join_numbered_ne_nil r rs
    rw [if_neg hne]
    have hdata : (⟨joinWithNewline (numberCases (r :: rs))⟩ : String).data
        = joinWithNewline (numberCases (r :: rs)) := rfl
    rw [hdata, splitLines_joinWithNewline (numberCases (r :: rs))
        (by unfold numberCases numberCasesFrom; simp)
        (numberCasesFrom_no_newline (r :: rs) 1 h)]
    rw [tallyLines_eq]
    unfold numberCases
    rw [countP_numberCasesFrom violP (fun i x => (numbered_preds i x).1) (r :: rs) 1,
      countP_numberCasesFrom noViolP (fun i x => (numbered_preds i x).2) (r :: rs) 1]

/-- C4 (amended): for reasons each free of newline characters (always the
case for the per-reason loop of the Streamlit variant, stated in the second
part unconditionally), the tallies satisfy
`violation + no_violation <= len(reasons)`, a case is counted in the
no-violation tally iff its reason contains the no-violation marker in either
spelling, and in the violation tally iff it contains the violation marker
but no no-violation marker; each case feeds at most one tally. -/
theorem claim_C4_amended :
    (∀ reasons : List (List Char), (∀ r ∈ reasons, ¬('\n' ∈ r)) →
      (decideTallyOfReasons reasons).1 + (decideTallyOfReasons reasons).2 ≤ reasons.length
      ∧ (decideTallyOfReasons reasons).2 = reasons.countP noViolP
      ∧ (decideTallyOfReasons reasons).1 = reasons.countP violP)
    ∧ (∀ reasons : List (List Char),
      (tallyReasonsSt reasons).1 + (tallyReasonsSt reasons).2 ≤ reasons.length
      ∧ (tallyReasonsSt reasons).2 = reasons.countP noViolP
      ∧ (tallyReasonsSt reasons).1 = reasons.countP violP) := by
  constructor
  · intro reasons h
    rw [decideTally_eq reasons h]
    exact ⟨countP_sum_le reasons, rfl, rfl⟩
  · intro reasons
    have hst : tallyReasonsSt reasons = (reasons.countP violP, reasons.countP noViolP) := by
      unfold tallyReasonsSt
      rw [tally_foldl_general reasons 0 0]
      simp
    rw [hst]
    exact ⟨countP_sum_le reasons, rfl, rfl⟩

/-- C4 counterexample to the claim as stated: a single retrieved reason that
contains a newline is split into two lines by `decide_node`'s per-line scan,
so the tallies sum to 2 although there is only 1 case. -/
theorem claim_C4_counterexample :
    ¬((decideTallyOfReasons ["위반이 있다\n위반이 있다".data]).1
      + (decideTallyOfReasons ["위반이 있다\n위반이 있다".data]).2 ≤ 1) := by
  decide

/-- Witness for C4 (amended) at a concrete newline-free case list. -/
theorem claim_C4_witness :
    (∀ r ∈ [("사례: 위반 없음".data : List Char)], ¬('\n' ∈ r))
    ∧ (decideTallyOfReasons ["사례: 위반 없음".data]).1
        + (decideTallyOfReasons ["사례: 위반 없음".data]).2 ≤ 1 :=
  ⟨by decide, (claim_C4_amended.1 ["사례: 위반 없음".data] (by decide)).1⟩

/-! ## Matcher decomposition lemmas (for C3, C8, C10) -/

/-- `chSpan` decomposes its input. -/
theorem chSpan_append (p : Char → Bool) (l : List Char) :
    (chSpan p l).1 ++ (chSpan p l).2 = l := by
  induction l with
  | nil => simp [chSpan]
  | cons c cs ih =>
    by_cases h : p c <;> simp [chSpan, h, ih]

/-- A successful `parenChunk` decomposes its input and shrinks it. -/
theorem parenChunk_eq : ∀ (l con r : List Char), parenChunk l = some (con, r) →
    l = con ++ r ∧ r.length < l.length := by
  intro l
  induction l with
  | nil => intro con r h; simp [parenChunk] at h
  | cons c cs ih =>
    intro con r h
    unfold parenChunk at h
    by_cases hc : c = ')'
    · rw [if_pos hc] at h
      simp only [Option.some.injEq, Prod.mk.injEq] at h
      obtain ⟨h1, h2⟩ := h
      subst h1; subst h2; subst hc
      simp
    · rw [if_neg hc] at h
      cases hpc : parenChunk cs with
      | none => rw [hpc] at h; cases h
      | some pr =>
        rcases pr with ⟨con2, r2⟩
        rw [hpc] at h
        simp only [Option.some.injEq, Prod.mk.injEq] at h
        obtain ⟨h1, h2⟩ := h
        subst h1; subst h2
        obtain ⟨he, hlt⟩ := ih con2 r2 hpc
        constructor
        · rw [List.cons_append, ← he]
        · simp only [List.length_cons]
          omega

/-- `takeParensF` decomposes its input. -/
theorem takeParensF_append : ∀ (f : Nat) (l : List Char),
    (takeParensF f l).1 ++ (takeParensF f l).2 = l := by
  intro f
  induction f with
  | zero => intro l; rfl
  | succ f ih =>
    intro l
    unfold takeParensF
    split
    · rename_i rest
      cases hpc : parenChunk rest with
      | none => simp
      | some pr =>
        rcases pr with ⟨con, r2⟩
        obtain ⟨heq, _⟩ := parenChunk_eq rest con r2 hpc
        dsimp only
        simp only [List.append_assoc, ih r2]
        rw [heq, List.cons_append]
    · rfl

/-- The remainder of `takeParensF` is no longer than the input. -/
theorem takeParensF_len (f : Nat) (l : List Char) :
    (takeParensF f l).2.length ≤ l.length := by
  have h := congrArg List.length (takeParensF_append f l)
  simp only [List.length_append] at h
  omega

/-- A successful citation match decomposes the text into the matched part and
the rest, with a nonempty matched part. -/
theorem matchCitation_decomp (l : List Char) (cit : Citation) (w r : List Char)
    (h : matchCitation l = some (cit, w, r)) : l = w ++ r ∧ ¬(w = []) := by
  unfold matchCitation at h
  split at h
  case h_2 => cases h
  rename_i r1
  rcases hspan1 : chSpan Char.isDigit r1 with ⟨ds, r2⟩
  rw [hspan1] at h
  dsimp only at h
  split at h
  · cases h
  rename_i hds
  split at h
  case h_2 => cases h
  rename_i r3
  rcases hspan2 : chSpan (fun c => !(c = '」')) r3 with ⟨nm, r4⟩
  rw [hspan2] at h
  dsimp only at h
  split at h
  · cases h
  rename_i hnm
  split at h
  case h_2 => cases h
  rename_i g r5
  split at h
  case isFalse => cases h
  rename_i hg
  have h1 : ds ++ '조' :: '「' :: r3 = r1 := by
    have hx := chSpan_append Char.isDigit r1
    rw [hspan1] at hx
    exact hx
  have h2 : nm ++ '」' :: g :: r5 = r3 := by
    have hx := chSpan_append (fun c => !(c = '」')) r3
    rw [hspan2] at hx
    exact hx
  revert h
  generalize hsuf : sufOf r5 = suf
  intro h
  have hr5 : suf ++ r5.drop suf.length = r5 := by
    rw [← hsuf]
    unfold sufOf
    split
    · rfl
    · rfl
    · rfl
  have h3 : (takeParens (r5.drop suf.length)).1 ++ (takeParens (r5.drop suf.length)).2
      = r5.drop suf.length := takeParensF_append _ _
  simp only [Option.some.injEq, Prod.mk.injEq] at h
  obtain ⟨_, hw, hr⟩ := h
  subst hw; subst hr
  constructor
  · simp only [List.cons_append, List.append_assoc]
    rw [h3, hr5, h2, h1]
  · simp

/-- The rest of a successful match is strictly shorter than the input. -/
theorem matchCitation_rest_lt (l : List Char) (cit : Citation) (w r : List Char)
    (h : matchCitation l = some (cit, w, r)) : r.length < l.length := by
  obtain ⟨hdec, hw⟩ := matchCitation_decomp l cit w r h
  have := congrArg List.length hdec
  simp only [List.length_append] at this
  have : 0 < w.length := List.length_pos.mpr hw
  omega

/-- `reSubF [] = []` for every fuel. -/
theorem reSubF_nil (f : Nat) : reSubF f [] = [] := by
  cases f <;> rfl

/-- Fuel irrelevance for `reSubF`: any sufficient fuel gives the same result. -/
theorem reSubF_congr : ∀ (f : Nat) (l : List Char) (g : Nat),
    l.length ≤ f → l.length ≤ g → reSubF f l = reSubF g l := by
  intro f
  induction f with
  | zero =>
    intro l g hf _
    have hl : l = [] := List.length_eq_zero.mp (Nat.le_zero.mp hf)
    subst hl
    rw [reSubF_nil, reSubF_nil]
  | succ f ih =>
    intro l g hf hg
    cases l with
    | nil => rw [reSubF_nil, reSubF_nil]
    | cons c cs =>
      obtain ⟨g', rfl⟩ : ∃ g', g = g' + 1 := by
        refine ⟨g - 1, ?_⟩
        have : 1 ≤ g := le_trans (by simp) hg
        omega
      show reSubF (f+1) (c :: cs) = reSubF (g'+1) (c :: cs)
      unfold reSubF
      cases hm : matchCitation (c :: cs) with
      | some t =>
        rcases t with ⟨cit, w, r⟩
        simp only [hm]
        have hr := matchCitation_rest_lt (c :: cs) cit w r hm
        simp only [List.length_cons] at hr hf hg
        rw [ih r g' (by omega) (by omega)]
      | none =>
        simp only [hm]
        simp only [List.length_cons] at hf hg
        rw [ih cs g' (by omega) (by omega)]

/-- Any sufficient fuel computes `reSub`. -/
theorem reSubF_eq_reSub (f : Nat) (l : List Char) (h : l.length ≤ f) :
    reSubF f l = reSub l :=
  reSubF_congr f l l.length h (le_refl _)

/-! ## C3: per-match behaviour of the citation corrector -/

/-- C3: wherever the scan finds a citation match, the output rewrites that
match with `replace_match` and continues after it; the rewrite replaces the
cited name by the canonical one and appends the canonical item text when the
ordinal is among the article's items, keeps the ordinal and drops any
parenthetical/suffix when it is not, and leaves the matched substring
byte-for-byte unchanged when the article number is not in the knowledge
base. -/
theorem claim_C3 (l : List Char) (cit : Citation) (whole rest : List Char)
    (h : matchCitation l = some (cit, whole, rest)) :
    reSub l = replaceMatch cit whole ++ reSub rest
    ∧ (REGULATION_DICT.lookup cit.num = none → replaceMatch cit whole = whole)
    ∧ (∀ art, REGULATION_DICT.lookup cit.num = some art →
        (∀ content, art.items.lookup cit.glyph = some content →
          replaceMatch cit whole
            = citeText cit.num art.name cit.glyph ++ '(' :: content ++ [')'])
        ∧ (art.items.lookup cit.glyph = none →
          replaceMatch cit whole = citeText cit.num art.name cit.glyph)) := by
  refine ⟨?_, ?_, ?_⟩
  · have hlt := matchCitation_rest_lt l cit whole rest h
    have hl : ¬(l = []) := by
      intro he; subst he
      exact Option.noConfusion h
    cases hL : l.length with
    | zero => exact absurd (List.length_eq_zero.mp hL) hl
    | succ k =>
      have : reSub l = reSubF (k+1) l := by
        unfold reSub
        rw [hL]
      rw [this]
      unfold reSubF
      rw [h]
      dsimp only
      rw [reSubF_eq_reSub k rest (by omega)]
  · intro hnone
    unfold replaceMatch
    rw [hnone]
  · intro art hart
    constructor
    · intro content hc
      unfold replaceMatch
      rw [hart]
      dsimp only
      rw [hc]
    · intro hnone
      unfold replaceMatch
      rw [hart]
      dsimp only
      rw [hnone]

/-- Witness for C3 at a concrete miscited article-1 citation. -/
theorem claim_C3_witness :
    matchCitation "제1조「윤리강령」①항(내용)".data
      = some (⟨"1".data, "윤리강령".data, '①'⟩, "제1조「윤리강령」①항(내용)".data, [])
    ∧ reSub "제1조「윤리강령」①항(내용)".data
      = replaceMatch ⟨"1".data, "윤리강령".data, '①'⟩ "제1조「윤리강령」①항(내용)".data
        ++ reSub [] :=
  ⟨by decide, (claim_C3 _ _ _ _ (by decide)).1⟩

/-! ## C8: identity on citation-free text -/

/-- On citation-free text the scan copies everything for any fuel. -/
theorem reSubF_no_citation : ∀ (f : Nat) (l : List Char),
    hasCitation l = false → reSubF f l = l := by
  intro f
  induction f with
  | zero => intro l _; rfl
  | succ f ih =>
    intro l h
    cases l with
    | nil => rfl
    | cons c cs =>
      unfold hasCitation at h
      have h1 : matchCitation (c :: cs) = none := by
        rcases hm : matchCitation (c :: cs) with _ | t
        · rfl
        · rw [hm] at h
          simp at h
      have h2 : hasCitation cs = false := by
        rw [h1] at h
        simpa using h
      unfold reSubF
      rw [h1]
      dsimp only
      rw [ih cs h2]

/-- C8: `correct_article_reference` is the identity on every text in which no
position starts a citation-pattern match; it is a pure total function
performing one left-to-right pass over its input, never over its own
output. -/
theorem claim_C8 (s : String) (h : hasCitation s.data = false) :
    correct_article_reference s = s := by
  unfold correct_article_reference reSub
  rw [reSubF_no_citation s.data.length s.data h]

/-- Witness for C8 on a concrete citation-free text. -/
theorem claim_C8_witness :
    hasCitation "이 기사는 심의 대상이 아니다. 제12항 참조".data = false
    ∧ correct_article_reference "이 기사는 심의 대상이 아니다. 제12항 참조"
      = "이 기사는 심의 대상이 아니다. 제12항 참조" :=
  ⟨by decide, claim_C8 "이 기사는 심의 대상이 아니다. 제12항 참조" (by decide)⟩

/-! ## C10: idempotence analysis -/

/-- Characters kept by `chSpan` satisfy the predicate. -/
theorem chSpan_prop (p : Char → Bool) (l : List Char) :
    ∀ c ∈ (chSpan p l).1, p c = true := by
  induction l with
  | nil => intro c hc; simp [chSpan] at hc
  | cons x xs ih =>
    intro c hc
    by_cases hx : p x
    · simp only [chSpan, hx, if_pos] at hc
      rcases List.mem_cons.mp hc with hc | hc
      · subst hc; exact hx
      · exact ih c hc
    · simp [chSpan, hx] at hc

/-- `chSpan` over a satisfying prefix followed by a failing character. -/
theorem chSpan_append_of_all (p : Char → Bool) (a : List Char) (x : Char) (b : List Char)
    (ha : ∀ c ∈ a, p c = true) (hx : p x = false) :
    chSpan p (a ++ x :: b) = (a, x :: b) := by
  induction a with
  | nil => simp [chSpan, hx]
  | cons c a ih =>
    have hc : p c = true := ha c (by simp)
    simp only [List.cons_append, chSpan, hc, if_true, List.append_eq]
    rw [ih (fun y hy => ha y (by simp [hy]))]

/-- A head that is neither `항` nor `호` consumes no suffix. -/
theorem sufOf_eq_nil (l : List Char) (h1 : ¬(l.head? = some '항')) (h2 : ¬(l.head? = some '호')) :
    sufOf l = [] := by
  unfold sufOf
  split
  · simp at h1
  · simp at h2
  · rfl

/-- `takeParensF` consumes nothing unless the head is `(`. -/
theorem takeParensF_not_lparen (f : Nat) (l : List Char) (h : ¬(l.head? = some '(')) :
    takeParensF f l = ([], l) := by
  cases f with
  | zero => rfl
  | succ f =>
    unfold takeParensF
    split
    · simp at h
    · rfl

/-- `parenChunk` consumes exactly up to the first `)`. -/
theorem parenChunk_no_rparen (content s : List Char) (h : ¬(')' ∈ content)) :
    parenChunk (content ++ ')' :: s) = some (content ++ [')'], s) := by
  induction content with
  | nil => simp [parenChunk]
  | cons c cs ih =>
    have hc : ¬(c = ')') := fun he => h (by simp [he])
    have hcs : ¬(')' ∈ cs) := fun hx => h (by simp [hx])
    simp only [List.cons_append, parenChunk, hc, ite_false, List.append_eq, ih hcs]

/-- Key lookup in an association list yields a member. -/
theorem lookup_mem {α β : Type} [BEq α] [LawfulBEq α] (l : List (α × β)) (a : α) (b : β) :
    l.lookup a = some b → (a, b) ∈ l := by
  induction l with
  | nil => intro h; cases h
  | cons p ps ih =>
    rcases p with ⟨k, v⟩
    intro h
    unfold List.lookup at h
    by_cases he : a == k
    · rw [he] at h
      simp only [Option.some.injEq] at h
      have : a = k := eq_of_beq he
      subst this; subst h
      simp
    · rw [Bool.not_eq_true] at he
      rw [he] at h
      exact List.mem_cons_of_mem _ (ih h)

/-- Everything a successful match reveals about the matched text: its head
structure, the group properties, and — on clean input — that the whole match
is exactly the bare citation text. -/
theorem matchCitation_shape (l : List Char) (cit : Citation) (w r : List Char)
    (h : matchCitation l = some (cit, w, r)) :
    ∃ tail, w = '제' :: cit.num ++ '조' :: '「' :: cit.name ++ '」' :: cit.glyph :: tail
    ∧ ¬(cit.num = []) ∧ (∀ c ∈ cit.num, Char.isDigit c = true)
    ∧ ¬(cit.name = []) ∧ (∀ c ∈ cit.name, ¬(c = '」'))
    ∧ isGlyph cit.glyph = true
    ∧ (cleanText l = true → tail = []) := by
  unfold matchCitation at h
  split at h
  case h_2 => cases h
  rename_i r1
  rcases hspan1 : chSpan Char.isDigit r1 with ⟨ds, r2⟩
  rw [hspan1] at h
  dsimp only at h
  split at h
  · cases h
  rename_i hds
  split at h
  case h_2 => cases h
  rename_i r3
  rcases hspan2 : chSpan (fun c => !(c = '」')) r3 with ⟨nm, r4⟩
  rw [hspan2] at h
  dsimp only at h
  split at h
  · cases h
  rename_i hnm
  split at h
  case h_2 => cases h
  rename_i g r5
  split at h
  case isFalse => cases h
  rename_i hg
  simp only [Option.some.injEq, Prod.mk.injEq] at h
  obtain ⟨hcit, hw, hr⟩ := h
  have h1 : ds ++ '조' :: '「' :: r3 = r1 := by
    have hx := chSpan_append Char.isDigit r1
    rw [hspan1] at hx
    exact hx
  have h2 : nm ++ '」' :: g :: r5 = r3 := by
    have hx := chSpan_append (fun c => !(c = '」')) r3
    rw [hspan2] at hx
    exact hx
  subst hcit
  refine ⟨sufOf r5 ++ (takeParens (r5.drop (sufOf r5).length)).1, ?_, hds, ?_, hnm, ?_, hg, ?_⟩
  · rw [← hw]
  · intro c hc
    have := chSpan_prop Char.isDigit r1 c
    rw [hspan1] at this
    exact this hc
  · intro c hc
    have := chSpan_prop (fun c => !(c = '」')) r3 c
    rw [hspan2] at this
    have hb := this hc
    simp only [Bool.not_eq_true'] at hb
    intro he
    rw [he] at hb
    simp at hb
  · intro hclean
    simp only [cleanText, List.all_cons, List.all_eq_true, Bool.and_eq_true] at hclean
    have hr5clean : ∀ c ∈ r5, cleanChar c = true := by
      intro c hc
      have hc3 : c ∈ r3 := by
        rw [← h2]
        simp only [List.mem_append, List.mem_cons]
        right; right; right
        exact hc
      have hc1 : c ∈ r1 := by
        rw [← h1]
        simp only [List.mem_append, List.mem_cons]
        right; right; right
        exact hc3
      exact hclean.2 c hc1
    have hsuf : sufOf r5 = [] := by
      apply sufOf_eq_nil
      · intro hh
        cases r5 with
        | nil => simp at hh
        | cons x xs =>
          simp only [List.head?_cons, Option.some.injEq] at hh
          have := hr5clean x (by simp)
          rw [hh] at this
          simp [cleanChar] at this
      · intro hh
        cases r5 with
        | nil => simp at hh
        | cons x xs =>
          simp only [List.head?_cons, Option.some.injEq] at hh
          have := hr5clean x (by simp)
          rw [hh] at this
          simp [cleanChar] at this
    rw [hsuf]
    simp only [List.length_nil, List.drop_zero, List.nil_append]
    have : takeParens r5 = ([], r5) := by
      apply takeParensF_not_lparen
      intro hh
      cases r5 with
      | nil => simp at hh
      | cons x xs =>
        simp only [List.head?_cons, Option.some.injEq] at hh
        have := hr5clean x (by simp)
        rw [hh] at this
        simp [cleanChar] at this
    rw [this]

/-- The scan equation at a match: rewrite and continue after it. -/
theorem reSub_match (l : List Char) (cit : Citation) (w r : List Char)
    (h : matchCitation l = some (cit, w, r)) :
    reSub l = replaceMatch cit w ++ reSub r := by
  have hlt := matchCitation_rest_lt l cit w r h
  have hl : ¬(l = []) := by
    intro he; subst he
    exact Option.noConfusion h
  cases hL : l.length with
  | zero => exact absurd (List.length_eq_zero.mp hL) hl
  | succ k =>
    have hstep : reSub l = reSubF (k+1) l := by
      unfold reSub
      rw [hL]
    rw [hstep]
    unfold reSubF
    rw [h]
    dsimp only
    rw [reSubF_eq_reSub k r (by omega)]

/-- The scan equation at a non-matching position: copy one character. -/
theorem reSub_nomatch (c : Char) (cs : List Char)
    (h : matchCitation (c :: cs) = none) :
    reSub (c :: cs) = c :: reSub cs := by
  show reSubF (cs.length + 1) (c :: cs) = c :: reSub cs
  unfold reSubF
  rw [h]
  dsimp only
  rw [reSubF_eq_reSub cs.length cs (le_refl _)]

/-- Every text is related to its image under the scan. -/
theorem rel_reSub_aux : ∀ (n : Nat) (l : List Char), l.length ≤ n → ReSubRel l (reSub l) := by
  intro n
  induction n with
  | zero =>
    intro l hn
    have : l = [] := List.length_eq_zero.mp (Nat.le_zero.mp hn)
    subst this
    exact ReSubRel.nil
  | succ n ih =>
    intro l hn
    cases hm : matchCitation l with
    | none =>
      cases l with
      | nil => exact ReSubRel.nil
      | cons c cs =>
        rw [reSub_nomatch c cs hm]
        exact ReSubRel.step c cs (reSub cs) hm
          (ih cs (by simp only [List.length_cons] at hn; omega))
    | some t =>
      rcases t with ⟨cit, w, r⟩
      obtain ⟨hdec, _⟩ := matchCitation_decomp l cit w r hm
      have hlt := matchCitation_rest_lt l cit w r hm
      rw [reSub_match l cit w r hm, hdec]
      exact ReSubRel.repl cit w r (reSub r) (by rw [← hdec]; exact hm)
        (ih r (by omega))

/-- Every text is related to its `reSub` image. -/
theorem rel_reSub (l : List Char) : ReSubRel l (reSub l) :=
  rel_reSub_aux l.length l (le_refl _)

/-- The matched whole starts with `제`. -/
theorem matchCitation_w_head (l : List Char) (cit : Citation) (w r : List Char)
    (h : matchCitation l = some (cit, w, r)) : ∃ v, w = '제' :: v := by
  obtain ⟨tail, hw, _⟩ := matchCitation_shape l cit w r h
  exact ⟨cit.num ++ '조' :: '「' :: cit.name ++ '」' :: cit.glyph :: tail, hw⟩

/-- The replacement of a matched whole also starts with `제`. -/
theorem replaceMatch_head (cit : Citation) (w : List Char) (hw : ∃ v, w = '제' :: v) :
    ∃ v, replaceMatch cit w = '제' :: v := by
  unfold replaceMatch
  rcases hl : REGULATION_DICT.lookup cit.num with _ | art
  · exact hw
  · dsimp only
    rcases hi : art.items.lookup cit.glyph with _ | content
    · exact ⟨_, rfl⟩
    · exact ⟨_, rfl⟩

/-- Related texts are empty together. -/
theorem rel_nil_iff (t u : List Char) (h : ReSubRel t u) : (t = []) ↔ (u = []) := by
  induction h with
  | nil => simp
  | step c t' u' _ _ _ => simp
  | repl cit w t' u' hm _ _ =>
    obtain ⟨v, hv⟩ := matchCitation_w_head _ cit w t' hm
    obtain ⟨v2, hv2⟩ := replaceMatch_head cit w ⟨v, hv⟩
    rw [hv2, hv]
    simp

/-- Related texts have equal heads. -/
theorem rel_head (t u : List Char) (h : ReSubRel t u) : t.head? = u.head? := by
  induction h with
  | nil => rfl
  | step c t' u' _ _ _ => rfl
  | repl cit w t' u' hm _ _ =>
    obtain ⟨v, hv⟩ := matchCitation_w_head _ cit w t' hm
    obtain ⟨v2, hv2⟩ := replaceMatch_head cit w ⟨v, hv⟩
    rw [hv2, hv]
    rfl

/-- Peeling one non-`제` character preserves the relation. -/
theorem rel_peel (t u : List Char) (h : ReSubRel t u) :
    ∀ x t', t = x :: t' → ¬(x = '제') → ∃ u', u = x :: u' ∧ ReSubRel t' u' := by
  induction h with
  | nil => intro x t' ht _; cases ht
  | step c t0 u0 _ hrel _ =>
    intro x t' ht _
    injection ht with h1 h2
    subst h1; subst h2
    exact ⟨u0, rfl, hrel⟩
  | repl cit w t0 u0 hm _ _ =>
    intro x t' ht hx
    obtain ⟨v, hv⟩ := matchCitation_w_head _ cit w t0 hm
    rw [hv] at ht
    simp only [List.cons_append] at ht
    injection ht with h1 _
    exact absurd h1.symm hx

/-- `chSpan` with a predicate failing on `제` acts identically on related
texts and relates the remainders. -/
theorem rel_span (p : Char → Bool) (hp : p '제' = false) :
    ∀ (t u : List Char), ReSubRel t u → ∀ d t2, chSpan p t = (d, t2) →
      ∃ u2, chSpan p u = (d, u2) ∧ ReSubRel t2 u2 := by
  intro t u h
  induction h with
  | nil =>
    intro d t2 hsp
    simp only [chSpan] at hsp
    obtain ⟨h1, h2⟩ := Prod.mk.injEq .. ▸ hsp
    exact ⟨[], by simp [chSpan, ← h1], by rw [← h2]; exact ReSubRel.nil⟩
  | step c t0 u0 hnone hrel ih =>
    intro d t2 hsp
    by_cases hc : p c
    · rw [show chSpan p (c :: t0) = (c :: (chSpan p t0).1, (chSpan p t0).2) from by
          simp [chSpan, hc]] at hsp
      rcases hsp0 : chSpan p t0 with ⟨d0, t02⟩
      rw [hsp0] at hsp
      simp only [Prod.mk.injEq] at hsp
      obtain ⟨hd, ht2⟩ := hsp
      obtain ⟨u2, hu, hrel2⟩ := ih d0 t02 hsp0
      refine ⟨u2, ?_, by rw [← ht2]; exact hrel2⟩
      rw [show chSpan p (c :: u0) = (c :: (chSpan p u0).1, (chSpan p u0).2) from by
        simp [chSpan, hc]]
      rw [hu, ← hd]
    · rw [show chSpan p (c :: t0) = ([], c :: t0) from by simp [chSpan, hc]] at hsp
      simp only [Prod.mk.injEq] at hsp
      obtain ⟨hd, ht2⟩ := hsp
      refine ⟨c :: u0, ?_, ?_⟩
      · rw [show chSpan p (c :: u0) = ([], c :: u0) from by simp [chSpan, hc], ← hd]
      · rw [← ht2]
        exact ReSubRel.step c t0 u0 hnone hrel
  | repl cit w t0 u0 hm hrel _ =>
    intro d t2 hsp
    obtain ⟨v, hv⟩ := matchCitation_w_head _ cit w t0 hm
    obtain ⟨v2, hv2⟩ := replaceMatch_head cit w ⟨v, hv⟩
    rw [hv] at hsp
    rw [show chSpan p ('제' :: v ++ t0) = ([], '제' :: v ++ t0) from by
      simp [chSpan, hp]] at hsp
    simp only [Prod.mk.injEq] at hsp
    obtain ⟨hd, ht2⟩ := hsp
    refine ⟨replaceMatch cit w ++ u0, ?_, ?_⟩
    · rw [hv2]
      rw [show chSpan p ('제' :: v2 ++ u0) = ([], '제' :: v2 ++ u0) from by
        simp [chSpan, hp], ← hd, ← hv2]
    · rw [← ht2, ← hv]
      exact ReSubRel.repl cit w t0 u0 hm hrel

/-- `nameStage` after consuming one non-`」` character. -/
theorem nameStage_cons (c : Char) (l : List Char) (hc : ¬(c = '」')) :
    nameStage (c :: l) = nameStageTail l := by
  unfold nameStage nameStageTail
  have : chSpan (fun c => !(c = '」')) (c :: l)
      = (c :: (chSpan (fun c => !(c = '」')) l).1, (chSpan (fun c => !(c = '」')) l).2) := by
    simp [chSpan, hc]
  rw [this]
  rcases chSpan (fun c => !(c = '」')) l with ⟨nm, rest⟩
  dsimp only
  rcases rest with _ | ⟨x, _ | ⟨y, r⟩⟩ <;> simp

/-- `nameStageTail` after consuming one non-`」` character. -/
theorem nameStageTail_cons (c : Char) (l : List Char) (hc : ¬(c = '」')) :
    nameStageTail (c :: l) = nameStageTail l := by
  unfold nameStageTail
  rcases hsp : chSpan (fun c => !(c = '」')) l with ⟨nm, rest⟩
  have hstep : chSpan (fun c => !(c = '」')) (c :: l) = (c :: nm, rest) := by
    simp [chSpan, hc, hsp]
  rw [hstep]
  rcases rest with _ | ⟨x, _ | ⟨y, r⟩⟩ <;> rfl

/-- `nameStage` at a leading `」` (empty name) fails. -/
theorem nameStage_bracket (l : List Char) : nameStage ('」' :: l) = false := by
  unfold nameStage
  have : chSpan (fun c => !(c = '」')) ('」' :: l) = ([], '」' :: l) := by
    simp [chSpan]
  rw [this]
  rcases l with _ | ⟨g, r⟩ <;> simp

/-- `nameStageTail` at a leading `」` checks the following glyph. -/
theorem nameStageTail_bracket (l : List Char) :
    nameStageTail ('」' :: l)
      = (match l.head? with | some g => isGlyph g | none => false) := by
  unfold nameStageTail
  have : chSpan (fun c => !(c = '」')) ('」' :: l) = ([], '」' :: l) := by
    simp [chSpan]
  rw [this]
  rcases l with _ | ⟨g, r⟩ <;> simp

/-- A name block followed by `」`, glyph succeeds (tail form). -/
theorem nameStageTail_of (pre : List Char) (g : Char) (rest : List Char)
    (hpre : ∀ c ∈ pre, ¬(c = '」')) (hg : isGlyph g = true) :
    nameStageTail (pre ++ '」' :: g :: rest) = true := by
  unfold nameStageTail
  rw [chSpan_append_of_all _ pre '」' (g :: rest)
    (fun c hc => by simp [hpre c hc]) (by simp)]
  simp [hg]

/-- A nonempty name block followed by `」`, glyph succeeds. -/
theorem nameStage_of (pre : List Char) (g : Char) (rest : List Char)
    (hne : ¬(pre = [])) (hpre : ∀ c ∈ pre, ¬(c = '」')) (hg : isGlyph g = true) :
    nameStage (pre ++ '」' :: g :: rest) = true := by
  unfold nameStage
  rw [chSpan_append_of_all _ pre '」' (g :: rest)
    (fun c hc => by simp [hpre c hc]) (by simp)]
  simp [hne, hg]

/-- Name and item facts of the parsed knowledge base: names are nonempty and
`」`-free, and item contents contain no `)`. -/
theorem dict_facts : ∀ p ∈ REGULATION_DICT,
    ¬(p.2.name = []) ∧ (∀ c ∈ p.2.name, ¬(c = '」'))
    ∧ ∀ q ∈ p.2.items, ∀ c ∈ q.2, ¬(c = ')') := by
  decide

/-- Digits are not `」`. -/
theorem digit_ne_bracket (c : Char) (h : Char.isDigit c = true) : ¬(c = '」') := by
  intro he
  rw [he] at h
  simp [Char.isDigit] at h

/-- The citation head shape makes the matcher succeed, whatever follows. -/
theorem citeSuccess_of_shape (num name : List Char) (g : Char) (tail : List Char)
    (hnum : ¬(num = [])) (hd : ∀ c ∈ num, Char.isDigit c = true)
    (hname : ¬(name = [])) (hn : ∀ c ∈ name, ¬(c = '」'))
    (hg : isGlyph g = true) :
    citeSuccess ('제' :: num ++ '조' :: '「' :: name ++ '」' :: g :: tail) = true := by
  have hre : '제' :: num ++ '조' :: '「' :: name ++ '」' :: g :: tail
      = '제' :: (num ++ '조' :: ('「' :: (name ++ '」' :: g :: tail))) := by
    simp [List.cons_append, List.append_assoc]
  rw [hre]
  show (('제' = '제') && citeAfterJe (num ++ '조' :: ('「' :: (name ++ '」' :: g :: tail))))
      = true
  unfold citeAfterJe
  rw [chSpan_append_of_all Char.isDigit num '조' ('「' :: (name ++ '」' :: g :: tail))
    hd (by decide)]
  dsimp only
  unfold citeAfterNum
  simp [hnum, nameStage_of name g tail hname hn hg]

/-- Flattening a citation text followed by arbitrary material. -/
theorem citeText_append (num name : List Char) (g : Char) (X : List Char) :
    citeText num name g ++ X
      = '제' :: num ++ '조' :: '「' :: name ++ '」' :: g :: X := by
  simp [citeText, List.cons_append, List.append_assoc]

/-- Both name stages succeed on a full citation head, whatever follows. -/
theorem nameStages_of_shape (num name : List Char) (g : Char) (rest : List Char)
    (hn : ∀ c ∈ name, ¬(c = '」')) (hd : ∀ c ∈ num, Char.isDigit c = true)
    (hg : isGlyph g = true) :
    nameStage ('제' :: num ++ '조' :: '「' :: name ++ '」' :: g :: rest) = true
    ∧ nameStageTail ('제' :: num ++ '조' :: '「' :: name ++ '」' :: g :: rest) = true := by
  have hpre : ∀ c ∈ ('제' :: num ++ '조' :: '「' :: name), ¬(c = '」') := by
    intro c hc
    simp only [List.cons_append, List.mem_cons, List.mem_append] at hc
    rcases hc with hc | hc
    · subst hc; decide
    rcases hc with hc | hc
    · exact digit_ne_bracket c (hd c hc)
    rcases hc with hc | hc
    · subst hc; decide
    rcases hc with hc | hc
    · subst hc; decide
    · exact hn c hc
  have hsplit : '제' :: num ++ '조' :: '「' :: name ++ '」' :: g :: rest
      = ('제' :: num ++ '조' :: '「' :: name) ++ '」' :: g :: rest := by
    simp [List.cons_append, List.append_assoc]
  rw [hsplit]
  exact ⟨nameStage_of _ g rest (by simp) hpre hg, nameStageTail_of _ g rest hpre hg⟩

/-- The replacement of a match, case by knowledge-base outcome. -/
theorem replaceMatch_cases (cit : Citation) (w : List Char) :
    (REGULATION_DICT.lookup cit.num = none ∧ replaceMatch cit w = w)
    ∨ (∃ art, REGULATION_DICT.lookup cit.num = some art
        ∧ ((∃ content, art.items.lookup cit.glyph = some content
              ∧ replaceMatch cit w
                = citeText cit.num art.name cit.glyph ++ '(' :: content ++ [')'])
          ∨ (art.items.lookup cit.glyph = none
              ∧ replaceMatch cit w = citeText cit.num art.name cit.glyph))) := by
  rcases hl : REGULATION_DICT.lookup cit.num with _ | art
  · left
    refine ⟨rfl, ?_⟩
    unfold replaceMatch
    rw [hl]
  · right
    refine ⟨art, rfl, ?_⟩
    rcases hi : art.items.lookup cit.glyph with _ | content
    · right
      refine ⟨rfl, ?_⟩
      unfold replaceMatch
      rw [hl]
      dsimp only
      rw [hi]
    · left
      refine ⟨content, rfl, ?_⟩
      unfold replaceMatch
      rw [hl]
      dsimp only
      rw [hi]

/-- `nameStage` and `nameStageTail` transfer along the simulation relation. -/
theorem rel_nameStage (t u : List Char) (h : ReSubRel t u) :
    nameStage t = nameStage u ∧ nameStageTail t = nameStageTail u := by
  induction h with
  | nil => exact ⟨rfl, rfl⟩
  | step c t0 u0 _ hrel ih =>
    by_cases hc : c = '」'
    · subst hc
      constructor
      · rw [nameStage_bracket, nameStage_bracket]
      · rw [nameStageTail_bracket, nameStageTail_bracket, rel_head t0 u0 hrel]
    · constructor
      · rw [nameStage_cons c t0 hc, nameStage_cons c u0 hc]
        exact ih.2
      · rw [nameStageTail_cons c t0 hc, nameStageTail_cons c u0 hc]
        exact ih.2
  | repl cit w t0 u0 hm hrel _ =>
    obtain ⟨tail, hw, hnum, hdg, hname, hnb, hg, _⟩ :=
      matchCitation_shape (w ++ t0) cit w t0 hm
    have hsplitT : w ++ t0
        = '제' :: cit.num ++ '조' :: '「' :: cit.name ++ '」' :: cit.glyph :: (tail ++ t0) := by
      rw [hw]
      simp [List.cons_append, List.append_assoc]
    have ht := nameStages_of_shape cit.num cit.name cit.glyph (tail ++ t0) hnb hdg hg
    have hu : nameStage (replaceMatch cit w ++ u0) = true
        ∧ nameStageTail (replaceMatch cit w ++ u0) = true := by
      rcases replaceMatch_cases cit w with ⟨_, hrm⟩ | ⟨art, hl, hcase⟩
      · rw [hrm]
        have hsplitU : w ++ u0
            = '제' :: cit.num ++ '조' :: '「' :: cit.name ++ '」' :: cit.glyph :: (tail ++ u0) := by
          rw [hw]
          simp [List.cons_append, List.append_assoc]
        rw [hsplitU]
        exact nameStages_of_shape cit.num cit.name cit.glyph (tail ++ u0) hnb hdg hg
      · obtain ⟨hane, hanb, _⟩ := dict_facts (cit.num, art) (lookup_mem _ _ _ hl)
        rcases hcase with ⟨content, _, hrm⟩ | ⟨_, hrm⟩
        · rw [hrm]
          simp only [List.append_assoc]
          rw [citeText_append]
          exact nameStages_of_shape cit.num art.name cit.glyph _ hanb hdg hg
        · rw [hrm, citeText_append]
          exact nameStages_of_shape cit.num art.name cit.glyph _ hanb hdg hg
    constructor
    · rw [hsplitT, ht.1, hu.1]
    · rw [hsplitT, ht.2, hu.2]

/-- The head of a `chSpan` remainder fails the predicate. -/
theorem chSpan_head2 (p : Char → Bool) : ∀ (l d : List Char) (c : Char) (rest : List Char),
    chSpan p l = (d, c :: rest) → p c = false := by
  intro l
  induction l with
  | nil => intro d c rest h; simp [chSpan] at h
  | cons x xs ih =>
    intro d c rest h
    by_cases hx : p x
    · rw [show chSpan p (x :: xs) = (x :: (chSpan p xs).1, (chSpan p xs).2) from by
        simp [chSpan, hx]] at h
      rcases hsp : chSpan p xs with ⟨d0, r0⟩
      rw [hsp] at h
      simp only [Prod.mk.injEq] at h
      exact ih d0 c rest (by rw [hsp, h.2])
    · rw [show chSpan p (x :: xs) = ([], x :: xs) from by simp [chSpan, hx]] at h
      simp only [Prod.mk.injEq, List.cons.injEq] at h
      rw [← h.2.1]
      simpa using hx

/-- `citeAfterNum` transfers along the simulation relation. -/
theorem rel_citeAfterNum (t u : List Char) (h : ReSubRel t u) :
    citeAfterNum t = citeAfterNum u := by
  rcases t with _ | ⟨a, t'⟩
  · have hu : u = [] := (rel_nil_iff _ u h).mp rfl
    subst hu; rfl
  · by_cases ha : a = '제'
    · subst ha
      have hh := rel_head _ _ h
      rcases u with _ | ⟨a2, u'⟩
      · simp at hh
      · simp only [List.head?_cons, Option.some.injEq] at hh
        subst hh
        rcases t' with _ | ⟨b, r3⟩ <;> rcases u' with _ | ⟨b2, u3⟩ <;>
          simp [citeAfterNum]
    · obtain ⟨u', hu, hrel'⟩ := rel_peel _ _ h a t' rfl ha
      subst hu
      by_cases hb : a = '조'
      · rcases t' with _ | ⟨b, t''⟩
        · have : u' = [] := (rel_nil_iff _ _ hrel').mp rfl
          subst this; rfl
        · by_cases hb2 : b = '제'
          · subst hb2
            have hh := rel_head _ _ hrel'
            rcases u' with _ | ⟨c2, u''⟩
            · simp at hh
            · simp only [List.head?_cons, Option.some.injEq] at hh
              subst hh
              simp [citeAfterNum]
          · obtain ⟨u'', hu2, hrel''⟩ := rel_peel _ _ hrel' b t'' rfl hb2
            subst hu2
            by_cases hb3 : b = '「'
            · simp [citeAfterNum, hb, hb3, (rel_nameStage _ _ hrel'').1]
            · simp [citeAfterNum, hb3]
      · rcases t' with _ | ⟨b, t''⟩ <;> rcases u' with _ | ⟨b2, u3⟩ <;>
          simp [citeAfterNum, hb]

/-- `citeAfterJe` transfers along the simulation relation. -/
theorem rel_citeAfterJe (t u : List Char) (h : ReSubRel t u) :
    citeAfterJe t = citeAfterJe u := by
  unfold citeAfterJe
  rcases hsp : chSpan Char.isDigit t with ⟨d, t2⟩
  obtain ⟨u2, hspu, hrel2⟩ := rel_span Char.isDigit (by decide) t u h d t2 hsp
  rw [hspu]
  dsimp only
  rw [rel_citeAfterNum _ _ hrel2]

/-- Match success at the head transfers along the simulation relation. -/
theorem rel_citeSuccess (t u : List Char) (h : ReSubRel t u) :
    citeSuccess t = citeSuccess u := by
  induction h with
  | nil => rfl
  | step c t0 u0 _ hrel _ =>
    show ((c = '제') && citeAfterJe t0) = ((c = '제') && citeAfterJe u0)
    rw [rel_citeAfterJe t0 u0 hrel]
  | repl cit w t0 u0 hm hrel _ =>
    obtain ⟨tail, hw, hnum, hdg, hname, hnb, hg, _⟩ :=
      matchCitation_shape (w ++ t0) cit w t0 hm
    have ht : citeSuccess (w ++ t0) = true := by
      rw [show w ++ t0
          = '제' :: cit.num ++ '조' :: '「' :: cit.name ++ '」' :: cit.glyph :: (tail ++ t0) from by
        rw [hw]; simp [List.cons_append, List.append_assoc]]
      exact citeSuccess_of_shape _ _ _ _ hnum hdg hname hnb hg
    have hu : citeSuccess (replaceMatch cit w ++ u0) = true := by
      rcases replaceMatch_cases cit w with ⟨_, hrm⟩ | ⟨art, hl, hcase⟩
      · rw [hrm, show w ++ u0
            = '제' :: cit.num ++ '조' :: '「' :: cit.name ++ '」' :: cit.glyph :: (tail ++ u0) from by
          rw [hw]; simp [List.cons_append, List.append_assoc]]
        exact citeSuccess_of_shape _ _ _ _ hnum hdg hname hnb hg
      · obtain ⟨hane, hanb, _⟩ := dict_facts (cit.num, art) (lookup_mem _ _ _ hl)
        rcases hcase with ⟨content, _, hrm⟩ | ⟨_, hrm⟩
        · rw [hrm]
          simp only [List.append_assoc]
          rw [citeText_append]
          exact citeSuccess_of_shape _ _ _ _ hnum hdg hane hanb hg
        · rw [hrm, citeText_append]
          exact citeSuccess_of_shape _ _ _ _ hnum hdg hane hanb hg
    rw [ht, hu]

/-- The matcher succeeds exactly when the Boolean pipeline does. -/
theorem matchCitation_isSome (l : List Char) : (matchCitation l).isSome = citeSuccess l := by
  rcases l with _ | ⟨c, r1⟩
  · rfl
  · by_cases hc : c = '제'
    · subst hc
      have h1 : citeSuccess ('제' :: r1) = citeAfterJe r1 := by simp [citeSuccess]
      rw [h1]
      rcases hsp : chSpan Char.isDigit r1 with ⟨ds, r2⟩
      unfold matchCitation citeAfterJe
      simp only [hsp]
      by_cases hds : ds = []
      · simp [hds]
      · rw [if_neg hds]
        have h2 : (!(decide (ds = []))) = true := by simp [hds]
        rw [h2, Bool.true_and]
        rcases r2 with _ | ⟨a, r2'⟩
        · rfl
        · by_cases ha : a = '조'
          · subst ha
            rcases r2' with _ | ⟨b, r3⟩
            · rfl
            · by_cases hb : b = '「'
              · subst hb
                have hrhs : citeAfterNum ('조' :: '「' :: r3) = nameStage r3 := by
                  simp [citeAfterNum]
                rw [hrhs]
                rcases hsp2 : chSpan (fun c => !(c = '」')) r3 with ⟨nm, r4⟩
                unfold nameStage
                simp only [hsp2]
                by_cases hnm : nm = []
                · rcases r4 with _ | ⟨x, _ | ⟨y, r5⟩⟩ <;> simp [hnm]
                · rw [if_neg hnm]
                  rcases r4 with _ | ⟨x, _ | ⟨y, r5⟩⟩
                  · rfl
                  · by_cases hx : x = '」'
                    · subst hx; rfl
                    · split
                      · rename_i heq
                        injection heq with hx2 _
                        exact absurd hx2 hx
                      · rfl
                  · have hx : x = '」' := by
                      have := chSpan_head2 (fun c => !(c = '」')) r3 nm x (y :: r5) hsp2
                      simpa using this
                    subst hx
                    dsimp only
                    by_cases hy : isGlyph y
                    · simp [hy, hnm]
                    · simp [hy, hnm]
              · have hrhs : citeAfterNum ('조' :: b :: r3) = false := by
                  simp [citeAfterNum, hb]
                rw [hrhs]
                split
                · rename_i heq
                  injection heq with _ heq2
                  injection heq2 with hb2 _
                  exact absurd hb2 hb
                · rfl
          · have hrhs : citeAfterNum (a :: r2') = false := by
              rcases r2' with _ | ⟨b, r3⟩ <;> simp [citeAfterNum, ha]
            rw [hrhs]
            split
            · rename_i heq
              injection heq with ha2 _
              exact absurd ha2 ha
            · rfl
    · have h1 : citeSuccess (c :: r1) = false := by simp [citeSuccess, hc]
      rw [h1]
      rcases hm : matchCitation (c :: r1) with _ | t
      · rfl
      · exfalso
        rcases t with ⟨cit, w, r⟩
        obtain ⟨v, hv⟩ := matchCitation_w_head _ cit w r hm
        obtain ⟨hdec, _⟩ := matchCitation_decomp _ cit w r hm
        rw [hv] at hdec
        simp only [List.cons_append] at hdec
        injection hdec with hc2 _
        exact hc (hc2)

/-- On a bare citation text followed by clean material, the matcher consumes
exactly the citation. -/
theorem matchCitation_cite (num name : List Char) (g : Char) (s : List Char)
    (hnum : ¬(num = [])) (hd : ∀ c ∈ num, Char.isDigit c = true)
    (hname : ¬(name = [])) (hn : ∀ c ∈ name, ¬(c = '」'))
    (hg : isGlyph g = true)
    (h1 : ¬(s.head? = some '항')) (h2 : ¬(s.head? = some '호'))
    (h3 : ¬(s.head? = some '(')) :
    matchCitation (citeText num name g ++ s)
      = some (⟨num, name, g⟩, citeText num name g, s) := by
  have hre : citeText num name g ++ s
      = '제' :: (num ++ '조' :: ('「' :: (name ++ '」' :: g :: s))) := by
    simp [citeText, List.cons_append, List.append_assoc]
  rw [hre]
  have hsp1 : chSpan Char.isDigit (num ++ '조' :: ('「' :: (name ++ '」' :: g :: s)))
      = (num, '조' :: ('「' :: (name ++ '」' :: g :: s))) :=
    chSpan_append_of_all Char.isDigit num '조' ('「' :: (name ++ '」' :: g :: s)) hd (by decide)
  have hsp2 : chSpan (fun c => !(c = '」')) (name ++ '」' :: g :: s)
      = (name, '」' :: g :: s) :=
    chSpan_append_of_all (fun c => !(c = '」')) name '」' (g :: s)
      (fun c hc => by simp [hn c hc]) (by simp)
  unfold matchCitation
  simp only [hsp1]
  rw [if_neg hnum]
  simp only [hsp2]
  rw [if_neg hname]
  simp only [hg, if_true, sufOf_eq_nil s h1 h2]
  simp [takeParens, takeParensF_not_lparen _ s h3, citeText]

/-- `takeParens` over one well-formed group followed by non-`(` material. -/
theorem takeParens_paren (content s : List Char)
    (hcon : ¬(')' ∈ content)) (h3 : ¬(s.head? = some '(')) :
    takeParens ('(' :: (content ++ ')' :: s)) = ('(' :: (content ++ [')']), s) := by
  show takeParensF ((content ++ ')' :: s).length + 1) ('(' :: (content ++ ')' :: s))
      = ('(' :: (content ++ [')']), s)
  unfold takeParensF
  simp only [parenChunk_no_rparen content s hcon]
  rw [takeParensF_not_lparen _ s h3]
  simp

/-- On a citation text followed by one parenthetical group and then clean
material, the matcher consumes the citation together with the group. -/
theorem matchCitation_cite_paren (num name : List Char) (g : Char)
    (content s : List Char)
    (hnum : ¬(num = [])) (hd : ∀ c ∈ num, Char.isDigit c = true)
    (hname : ¬(name = [])) (hn : ∀ c ∈ name, ¬(c = '」'))
    (hg : isGlyph g = true) (hcon : ¬(')' ∈ content))
    (h3 : ¬(s.head? = some '(')) :
    matchCitation (citeText num name g ++ '(' :: content ++ ')' :: s)
      = some (⟨num, name, g⟩, citeText num name g ++ '(' :: content ++ [')'], s) := by
  have hre : citeText num name g ++ '(' :: content ++ ')' :: s
      = '제' :: (num ++ '조' :: ('「' :: (name ++ '」' :: g ::
          ('(' :: (content ++ ')' :: s))))) := by
    simp [citeText, List.cons_append, List.append_assoc]
  rw [hre]
  have hsp1 : chSpan Char.isDigit
        (num ++ '조' :: ('「' :: (name ++ '」' :: g :: ('(' :: (content ++ ')' :: s)))))
      = (num, '조' :: ('「' :: (name ++ '」' :: g :: ('(' :: (content ++ ')' :: s))))) :=
    chSpan_append_of_all Char.isDigit num '조' _ hd (by decide)
  have hsp2 : chSpan (fun c => !(c = '」'))
        (name ++ '」' :: g :: ('(' :: (content ++ ')' :: s)))
      = (name, '」' :: g :: ('(' :: (content ++ ')' :: s))) :=
    chSpan_append_of_all (fun c => !(c = '」')) name '」' _
      (fun c hc => by simp [hn c hc]) (by simp)
  unfold matchCitation
  simp only [hsp1]
  rw [if_neg hnum]
  simp only [hsp2]
  rw [if_neg hname]
  simp only [hg, if_true,
    sufOf_eq_nil ('(' :: (content ++ ')' :: s)) (by simp) (by simp)]
  simp only [List.length_nil, List.drop_zero, takeParens_paren content s hcon h3]
  simp [citeText, List.cons_append, List.append_assoc]

/-- `replace_match` on a known article and known item ordinal. -/
theorem replaceMatch_of_hit (cit : Citation) (art : RegArticle) (content : List Char)
    (w : List Char) (hl : REGULATION_DICT.lookup cit.num = some art)
    (hi : art.items.lookup cit.glyph = some content) :
    replaceMatch cit w = citeText cit.num art.name cit.glyph ++ '(' :: content ++ [')'] := by
  unfold replaceMatch
  rw [hl]
  dsimp only
  rw [hi]

/-- `replace_match` on a known article but unknown item ordinal. -/
theorem replaceMatch_of_miss (cit : Citation) (art : RegArticle)
    (w : List Char) (hl : REGULATION_DICT.lookup cit.num = some art)
    (hi : art.items.lookup cit.glyph = none) :
    replaceMatch cit w = citeText cit.num art.name cit.glyph := by
  unfold replaceMatch
  rw [hl]
  dsimp only
  rw [hi]

/-- `replace_match` on an unknown article number returns the whole match. -/
theorem replaceMatch_of_none (cit : Citation) (w : List Char)
    (hl : REGULATION_DICT.lookup cit.num = none) :
    replaceMatch cit w = w := by
  unfold replaceMatch
  rw [hl]

/-- The scan image of a clean text starts with a clean character. -/
theorem clean_head (r : List Char) (hc : cleanText r = true) :
    ¬((reSub r).head? = some '항') ∧ ¬((reSub r).head? = some '호')
    ∧ ¬((reSub r).head? = some '(') := by
  have hh : (reSub r).head? = r.head? := (rel_head r (reSub r) (rel_reSub r)).symm
  rw [hh]
  rcases r with _ | ⟨c, cs⟩
  · simp
  · have hcc : cleanChar c = true := by
      simp only [cleanText, List.all_cons, Bool.and_eq_true] at hc
      exact hc.1
    simp only [List.head?_cons, Option.some.injEq]
    refine ⟨fun he => ?_, fun he => ?_, fun he => ?_⟩ <;>
      (subst he; simp [cleanChar] at hcc)

/-- On clean texts the scan is idempotent (length-bounded induction). -/
theorem reSub_idem_aux : ∀ (n : Nat) (l : List Char), l.length ≤ n →
    cleanText l = true → reSub (reSub l) = reSub l := by
  intro n
  induction n with
  | zero =>
    intro l hn _
    have : l = [] := List.length_eq_zero.mp (Nat.le_zero.mp hn)
    subst this; rfl
  | succ n ih =>
    intro l hn hcl
    cases hm : matchCitation l with
    | none =>
      rcases l with _ | ⟨c, cs⟩
      · rfl
      · have hcs : cleanText cs = true := by
          simp only [cleanText, List.all_cons, Bool.and_eq_true] at hcl
          exact hcl.2
        rw [reSub_nomatch c cs hm]
        have hrel : ReSubRel (c :: cs) (c :: reSub cs) :=
          ReSubRel.step c cs (reSub cs) hm (rel_reSub cs)
        have hcs2 : citeSuccess (c :: reSub cs) = citeSuccess (c :: cs) :=
          (rel_citeSuccess _ _ hrel).symm
        have hnone : matchCitation (c :: reSub cs) = none := by
          cases hmm : matchCitation (c :: reSub cs) with
          | none => rfl
          | some t =>
            have hfalse : (matchCitation (c :: reSub cs)).isSome = false := by
              rw [matchCitation_isSome, hcs2, ← matchCitation_isSome, hm]
              rfl
            rw [hmm] at hfalse
            simp at hfalse
        rw [reSub_nomatch c (reSub cs) hnone]
        rw [ih cs (by simp only [List.length_cons] at hn; omega) hcs]
    | some t =>
      rcases t with ⟨cit, w, r⟩
      obtain ⟨hdec, _⟩ := matchCitation_decomp l cit w r hm
      obtain ⟨tail, hw, hnum, hdg, hname, hnb, hg, htail⟩ := matchCitation_shape l cit w r hm
      have htl : tail = [] := htail hcl
      subst htl
      have hwci : w = citeText cit.num cit.name cit.glyph := by
        rw [hw]; simp [citeText]
      have hclr : cleanText r = true := by
        rw [hdec] at hcl
        simp only [cleanText, List.all_append, Bool.and_eq_true] at hcl
        exact hcl.2
      have hlt := matchCitation_rest_lt l cit w r hm
      have hihr : reSub (reSub r) = reSub r := ih r (by omega) hclr
      obtain ⟨hh1, hh2, hh3⟩ := clean_head r hclr
      rw [reSub_match l cit w r hm]
      rcases replaceMatch_cases cit w with ⟨hl0, hrm⟩ | ⟨art, hl0, hcase⟩
      · rw [hrm, hwci]
        have hm2 : matchCitation (citeText cit.num cit.name cit.glyph ++ reSub r)
            = some (cit, citeText cit.num cit.name cit.glyph, reSub r) :=
          matchCitation_cite cit.num cit.name cit.glyph (reSub r)
            hnum hdg hname hnb hg hh1 hh2 hh3
        rw [reSub_match _ _ _ _ hm2]
        rw [replaceMatch_of_none cit _ hl0, hihr]
      · obtain ⟨hane, hanb, hcon⟩ := dict_facts (cit.num, art) (lookup_mem _ _ _ hl0)
        rcases hcase with ⟨content, hi, hrm⟩ | ⟨hi, hrm⟩
        · have hco : ¬(')' ∈ content) := fun hx =>
            hcon (cit.glyph, content) (lookup_mem _ _ _ hi) ')' hx rfl
          rw [hrm]
          have hXr : (citeText cit.num art.name cit.glyph ++ '(' :: content ++ [')'])
                ++ reSub r
              = citeText cit.num art.name cit.glyph ++ '(' :: content ++ ')' :: reSub r := by
            simp [List.append_assoc]
          rw [hXr]
          have hm2 := matchCitation_cite_paren cit.num art.name cit.glyph content (reSub r)
            hnum hdg hane hanb hg hco hh3
          rw [reSub_match _ _ _ _ hm2]
          rw [replaceMatch_of_hit ⟨cit.num, art.name, cit.glyph⟩ art content _ hl0 hi, hihr]
          simp [List.append_assoc]
        · rw [hrm]
          have hm2 := matchCitation_cite cit.num art.name cit.glyph (reSub r)
            hnum hdg hane hanb hg hh1 hh2 hh3
          rw [reSub_match _ _ _ _ hm2]
          rw [replaceMatch_of_miss ⟨cit.num, art.name, cit.glyph⟩ art _ hl0 hi, hihr]

/-- C10 (counterexample): the citation corrector is not idempotent. A
leftover `항` suffix in the first output is absorbed by the second pass, and
a replacement-introduced `)` regroups an unclosed parenthetical on the second
pass, so `correct(correct(t)) ≠ correct(t)` for both inputs. -/
theorem claim_C10_counterexample :
    ¬(correct_article_reference (correct_article_reference "제1조「A」⑥항항")
        = correct_article_reference "제1조「A」⑥항항")
    ∧ ¬(correct_article_reference (correct_article_reference "제1조「A」①(x제2조「B」②")
        = correct_article_reference "제1조「A」①(x제2조「B」②") := by
  constructor <;> decide

/-- C10 (amended): the citation corrector is idempotent on every text that
contains none of the characters `항`, `호`, `(`, `)` — on such texts every
replacement the first pass makes is matched again in its entirety by the
second pass and mapped to itself, so `correct(correct(t)) = correct(t)`. -/
theorem claim_C10_amended (text : String) (h : cleanText text.data = true) :
    correct_article_reference (correct_article_reference text)
      = correct_article_reference text := by
  show String.mk (reSub (reSub text.data)) = String.mk (reSub text.data)
  exact congrArg String.mk (reSub_idem_aux text.data.length text.data (le_refl _) h)

/-- Witness for the amended C10 at a concrete clean input. -/
theorem claim_C10_amended_witness :
    cleanText "제1조「A」⑥".data = true
    ∧ correct_article_reference (correct_article_reference "제1조「A」⑥")
        = correct_article_reference "제1조「A」⑥" :=
  ⟨by decide, claim_C10_amended "제1조「A」⑥" (by decide)⟩

end Theorems

end PressEthics
